import Mathlib

deriving instance DecidableEq for Except

/-!
Shallow embedding of the `BackendInitializer` core of the backstage backend
wiring system (source file modelled: the class `BackendInitializer` with its
private helpers `#getInitDeps`, `#addFeature`, `#doStart`, and the public
`add`, `start`, `stop`).

Conventions of the embedding:

* Service references and extension-point references are identified by their
  string `id` (identity equality is by `id` in the source).
* JavaScript `Map`s are modelled as association lists in insertion order;
  JavaScript `Set`s as duplicate-free lists in first-insertion order.
* `init.func` closures are modelled by their observable outcome: `none` for a
  resolving promise, `some cause` for a rejection with the given cause.
* Asynchronous execution is modelled two ways: a sequentialized deterministic
  runner (`doStart`) for error results, and a trace relation (`DoStartTrace`)
  in which the per-plugin tasks of the `Promise.all` may interleave freely.
* Collaborator code that is imported by the source file but not part of it
  (the `DependencyGraph` library, the `ServiceRegistry`, the lifecycle
  service implementations) is modelled from the specification; each such
  definition carries a doc comment saying so.
-/

namespace Backstage

/-- An entry of the `#extensionPoints` table: the registered implementation
together with the plugin that registered (owns) it. -/
structure ExtPoint (I : Type) where
  impl : I
  pluginId : String
deriving DecidableEq

/-- The `#extensionPoints` map, keyed by extension point id, in insertion
order. -/
abbrev EpTable (I : Type) := List (String × ExtPoint I)

/-- Map lookup by key (`Map.get` on `#extensionPoints`). -/
def lookupEp {I : Type} (eps : EpTable I) (refId : String) : Option (ExtPoint I) :=
  (eps.find? (fun e => e.1 == refId)).map (·.2)

/-- The error taxonomy of the initializer, one constructor per distinct throw
site, carrying the data that the thrown message interpolates. -/
inductive BackendError where
  | alreadyStarted
  | featureAfterStart
  | invalidFeatureType (tag : String)
  | forbiddenServiceOverride
  | duplicateServiceImpl (serviceId : String)
  | invalidFeatureVersion (version : String)
  | invalidFeature (description : String)
  | duplicateExtensionPoint (extId : String)
  | duplicatePluginRegistration (pluginId : String)
  | duplicateModuleRegistration (pluginId moduleId : String)
  | extensionPointOwnership (ownerPluginId userPluginId : String)
  | unresolvedDependencies (refIds : List String)
  | circularModuleDependency (pluginId : String) (modulePath : List String)
  | moduleStartupFailed (pluginId moduleId cause : String)
  | pluginStartupFailed (pluginId cause : String)
  | lifecycleAlreadyInvoked
deriving DecidableEq

/-- Insertion into a JavaScript `Set` modelled as a duplicate-free list:
append the element unless it is already present. -/
def addMissing (ms : List String) (r : String) : List String :=
  if ms.contains r then ms else ms ++ [r]

/-- First-occurrence deduplication, the contents of a JavaScript `Set` built
by inserting the elements of a list in order. -/
def uniqList (l : List String) : List String :=
  l.foldl addMissing []

/-- The loop of `#getInitDeps`: walk the `deps` entries, binding extension
points owned by the same plugin, throwing on a foreign owner, resolving the
rest through the service holder, and collecting unresolvable refs into the
`missingRefs` set which is reported once after the loop. `acc` is the
`result` map, `missing` the `missingRefs` set. -/
def getInitDepsGo {I : Type} (eps : EpTable I) (svcGet : String → String → Option I)
    (pluginId : String) :
    List (String × String) → List (String × I) → List String →
      Except BackendError (List (String × I))
  | [], acc, missing =>
    if missing.isEmpty then .ok acc else .error (.unresolvedDependencies missing)
  | (name, refId) :: rest, acc, missing =>
    match lookupEp eps refId with
    | some ep =>
      if ep.pluginId ≠ pluginId then
        .error (.extensionPointOwnership ep.pluginId pluginId)
      else
        getInitDepsGo eps svcGet pluginId rest (acc ++ [(name, ep.impl)]) missing
    | none =>
      match svcGet refId pluginId with
      | some impl => getInitDepsGo eps svcGet pluginId rest (acc ++ [(name, impl)]) missing
      | none => getInitDepsGo eps svcGet pluginId rest acc (addMissing missing refId)

/-- `#getInitDeps(deps, pluginId)`: resolve every named dep either to an
extension point implementation (owned by `pluginId`) or through the service
holder, failing once with the batched list of missing refs. -/
def getInitDeps {I : Type} (eps : EpTable I) (svcGet : String → String → Option I)
    (deps : List (String × String)) (pluginId : String) :
    Except BackendError (List (String × I)) :=
  getInitDepsGo eps svcGet pluginId deps [] []

/-- The registrations returned by `InternalBackendFeature.getRegistrations()`.
`extensionPoints` pairs an extension point id with its implementation;
`deps` is the `init.deps` record in key order; `funcErr` is the observable
outcome of `init.func` (`none` resolves, `some cause` rejects). -/
inductive Registration (I : Type) where
  | plugin (pluginId : String) (extensionPoints : List (String × I))
      (deps : List (String × String)) (funcErr : Option String)
  | module (pluginId moduleId : String) (extensionPoints : List (String × I))
      (deps : List (String × String)) (funcErr : Option String)
deriving DecidableEq

/-- A feature as shape-probed by `#addFeature`: a service factory (exposes
`service`), an internal backend feature (exposes `getRegistrations`, with its
`version` tag), or neither. `tag` is the `$$type` discriminator. -/
inductive Feature (I : Type) where
  | serviceFactory (tag : String) (serviceId : String)
  | internal (tag : String) (version : String) (regs : List (Registration I))
  | other (tag : String) (description : String)
deriving DecidableEq

/-- The `$$type` value accepted by `#addFeature`. -/
def backendFeatureType : String := "@backstage/BackendFeature"

/-- Modelled from the spec: the id of the `coreServices.pluginMetadata`
service reference, a collaborator constant imported by the source file but
not part of it. Only its identity matters. -/
def pluginMetadataId : String := "core.pluginMetadata"

/-- The mutable feature-catalog state touched by `#addFeature`: the
`#providedServiceFactories` list (by service id) and the `#features` list
(each entry the registrations of one added feature). -/
structure CatalogState (I : Type) where
  providedServiceFactories : List String
  features : List (List (Registration I))
deriving DecidableEq

/-- `#addFeature(feature)`: check the `$$type` discriminator, then classify.
Service factories may not override `pluginMetadata` nor duplicate an already
provided service id; internal features must carry version `v1`. -/
def addFeature {I : Type} (st : CatalogState I) : Feature I → Except BackendError (CatalogState I)
  | .serviceFactory tag sid =>
    if tag ≠ backendFeatureType then .error (.invalidFeatureType tag)
    else if sid = pluginMetadataId then .error .forbiddenServiceOverride
    else if st.providedServiceFactories.contains sid then .error (.duplicateServiceImpl sid)
    else .ok { st with providedServiceFactories := st.providedServiceFactories ++ [sid] }
  | .internal tag version regs =>
    if tag ≠ backendFeatureType then .error (.invalidFeatureType tag)
    else if version ≠ "v1" then .error (.invalidFeatureVersion version)
    else .ok { st with features := st.features ++ [regs] }
  | .other tag d =>
    if tag ≠ backendFeatureType then .error (.invalidFeatureType tag)
    else .error (.invalidFeature d)

/-- The loop over discovered features: `#addFeature` each one in order,
stopping at the first error. -/
def addFeaturesLoop {I : Type} :
    CatalogState I → List (Feature I) → Except BackendError (CatalogState I)
  | st, [] => .ok st
  | st, f :: fs =>
    match addFeature st f with
    | .error e => .error e
    | .ok st' => addFeaturesLoop st' fs

/-- The feature-discovery step of `#doStart`: when the optional discovery
service is present, `#addFeature` each feature it returns, in order. -/
def discoveryPhase {I : Type} (st : CatalogState I) :
    Option (List (Feature I)) → Except BackendError (CatalogState I)
  | none => .ok st
  | some fs => addFeaturesLoop st fs

/-- A `BackendRegisterInit` record: `provides` the ids of the registered
extension points, `consumes` the set of dep ref ids, `deps` the `init.deps`
record, `funcErr` the outcome of `init.func`. -/
structure RegInit (I : Type) where
  provides : List String
  consumes : List String
  deps : List (String × String)
  funcErr : Option String
deriving DecidableEq

/-- The registration index built by the enumeration loop of `#doStart`:
the extension-point table, `pluginInits`, and `moduleInits`. -/
structure IndexState (I : Type) where
  eps : EpTable I
  pluginInits : List (String × RegInit I)
  moduleInits : List (String × List (String × RegInit I))
deriving DecidableEq

/-- The empty registration index. -/
def emptyIndex {I : Type} : IndexState I := ⟨[], [], []⟩

/-- The extension-point registration loop of `#doStart`: each `(extRef, impl)`
pair is rejected when the id is already in the table, otherwise recorded with
the registering plugin as owner and added to the `provides` set. -/
def registerEPs {I : Type} (pluginId : String) :
    EpTable I → List (String × I) → List String →
      Except BackendError (EpTable I × List String)
  | eps, [], provides => .ok (eps, provides)
  | eps, (extId, impl) :: rest, provides =>
    if (lookupEp eps extId).isSome then .error (.duplicateExtensionPoint extId)
    else registerEPs pluginId (eps ++ [(extId, ⟨impl, pluginId⟩)]) rest (provides ++ [extId])

/-- Process one registration of the enumeration loop of `#doStart`: register
its extension points, then insert it into `pluginInits` or `moduleInits`,
rejecting duplicate plugin or module registrations. -/
def addRegistration {I : Type} (st : IndexState I) :
    Registration I → Except BackendError (IndexState I)
  | .plugin pid exts deps ferr =>
    match registerEPs pid st.eps exts [] with
    | .error e => .error e
    | .ok (eps', provides) =>
      if (st.pluginInits.find? (fun p => p.1 == pid)).isSome then
        .error (.duplicatePluginRegistration pid)
      else
        .ok { st with
              eps := eps',
              pluginInits :=
                st.pluginInits ++ [(pid, ⟨provides, uniqList (deps.map (·.2)), deps, ferr⟩)] }
  | .module pid mid exts deps ferr =>
    match registerEPs pid st.eps exts [] with
    | .error e => .error e
    | .ok (eps', provides) =>
      match st.moduleInits.find? (fun p => p.1 == pid) with
      | none =>
        .ok { st with
              eps := eps',
              moduleInits :=
                st.moduleInits ++
                  [(pid, [(mid, ⟨provides, uniqList (deps.map (·.2)), deps, ferr⟩)])] }
      | some pms =>
        if (pms.2.find? (fun m => m.1 == mid)).isSome then
          .error (.duplicateModuleRegistration pid mid)
        else
          .ok { st with
                eps := eps',
                moduleInits := st.moduleInits.map (fun p =>
                  if p.1 == pid then
                    (p.1, p.2 ++ [(mid, ⟨provides, uniqList (deps.map (·.2)), deps, ferr⟩)])
                  else p) }

/-- The enumeration loop of `#doStart` over all registrations of all added
features, in order. -/
def indexPhase {I : Type} (regs : List (Registration I)) : Except BackendError (IndexState I) :=
  regs.foldlM addRegistration emptyIndex

/-- The `allPluginIds` list of `#doStart`: plugin ids of `pluginInits` then of
`moduleInits`, first occurrence kept. -/
def allPluginIds {I : Type} (st : IndexState I) : List String :=
  uniqList (st.pluginInits.map (·.1) ++ st.moduleInits.map (·.1))

/-- The modules registered for a plugin (empty when the plugin has no entry
in `moduleInits`). -/
def modsOf {I : Type} (st : IndexState I) (pluginId : String) : List (String × RegInit I) :=
  match st.moduleInits.find? (fun p => p.1 == pluginId) with
  | none => []
  | some pms => pms.2

/-- The plugin-kind registration for a plugin id, when one exists. -/
def pluginInitOf {I : Type} (st : IndexState I) (pluginId : String) : Option (RegInit I) :=
  (st.pluginInits.find? (fun p => p.1 == pluginId)).map (·.2)

/-- A node of the generic dependency graph: `value` is the module id,
`provides` and `consumes` are id lists. -/
structure GNode where
  value : String
  provides : List String
  consumes : List String
deriving DecidableEq

/-- The module dependency graph built by `#doStart` for one plugin:
relationships are reversed, a node provides the ids its module consumes and
consumes the ids of the extension points its module provides, so that a
module providing an extension point is initialized after all modules that
depend on it. -/
def moduleGraphNodes {I : Type} (modules : List (String × RegInit I)) : List GNode :=
  modules.map (fun m => ⟨m.1, m.2.consumes, m.2.provides⟩)

/-- Edge of the dependency graph: `a` consumes an id that `b` provides, so
`b` must complete before `a`. -/
def gEdge (a b : GNode) : Bool :=
  a.consumes.any (fun i => b.provides.contains i)

/-- A path of graph edges from `a` through the nodes of `l` to `b`. -/
def GPath (a : GNode) (l : List GNode) (b : GNode) : Prop :=
  List.Chain (fun x y => gEdge x y = true) a (l ++ [b])

/-- The graph has a cycle in the sense of the spec: a node sequence returning
to its start where each node consumes an id provided by the next. -/
def HasCycle (nodes : List GNode) : Prop :=
  ∃ a ∈ nodes, ∃ l : List GNode, (∀ x ∈ l, x ∈ nodes) ∧ GPath a l a

/-- Modelled from the spec: bounded path search of the `DependencyGraph`
library (imported by the source file but not part of it). Returns the
intermediate nodes of some edge path from `a` to `b` of length at most
`fuel + 1`, drawing intermediates from `nodes`. -/
def findPath (nodes : List GNode) : Nat → GNode → GNode → Option (List GNode)
  | 0, a, b => if gEdge a b then some [] else none
  | fuel + 1, a, b =>
    if gEdge a b then some []
    else nodes.findSome? (fun c =>
      if gEdge a c then (findPath nodes fuel c b).map (c :: ·) else none)

/-- Modelled from the spec: `DependencyGraph.detectCircularDependency()`
(imported by the source file but not part of it) returns a cycle path — a
node sequence starting and ending at the same node — when one exists. -/
def detectCircularDependency (nodes : List GNode) : Option (List GNode) :=
  nodes.findSome? (fun a =>
    (findPath nodes nodes.length a a).map (fun l => a :: (l ++ [a])))

/-- Observable events of a start. `moduleInit`/`pluginInit` mark the
invocation of the corresponding `init.func`; `pluginStartup`/`rootStartup`
the lifecycle `startup()` calls; the two install events the registration of
process signal handlers and of the unhandled-error hooks. -/
inductive Event where
  | installSignalHandlers
  | moduleInit (pluginId moduleId : String)
  | pluginInit (pluginId : String)
  | pluginStartup (pluginId : String)
  | rootStartup
  | installErrorHooks
deriving DecidableEq

/-- Modelled from the spec: `parallelTopologicalTraversal` of the
`DependencyGraph` library (not part of the source file), sequentialized. The
deterministic runner visits the modules in list order; order-sensitive
statements are made against the `ValidModuleOrder` relation instead. Each
visit resolves the module deps (`#getInitDeps`) and invokes `init.func`,
wrapping a rejection in the module-startup error. -/
def runModulesSeq {I : Type} (eps : EpTable I) (svcGet : String → String → Option I)
    (pluginId : String) :
    List (String × RegInit I) → Except BackendError Unit × List Event
  | [] => (.ok (), [])
  | (mid, mi) :: rest =>
    match getInitDeps eps svcGet mi.deps pluginId with
    | .error e => (.error e, [])
    | .ok _ =>
      match mi.funcErr with
      | some cause =>
        (.error (.moduleStartupFailed pluginId mid cause), [.moduleInit pluginId mid])
      | none =>
        let r := runModulesSeq eps svcGet pluginId rest
        (r.1, .moduleInit pluginId mid :: r.2)

/-- The module phase of `#doStart` for one plugin: build the (reversed)
module graph, fail with the circular-dependency error carrying the offending
module path when a cycle is detected, otherwise traverse the modules. -/
def runModulesPhase {I : Type} (eps : EpTable I) (svcGet : String → String → Option I)
    (pluginId : String) (modules : List (String × RegInit I)) :
    Except BackendError Unit × List Event :=
  match detectCircularDependency (moduleGraphNodes modules) with
  | some cyc => (.error (.circularModuleDependency pluginId (cyc.map (·.value))), [])
  | none => runModulesSeq eps svcGet pluginId modules

/-- The per-plugin task of the `Promise.all` of `#doStart`: initialize the
plugin modules, then the plugin itself when a plugin-kind registration
exists, then signal the plugin lifecycle `startup()`. -/
def runPlugin {I : Type} (eps : EpTable I) (svcGet : String → String → Option I)
    (idx : IndexState I) (pluginId : String) : Except BackendError Unit × List Event :=
  match runModulesPhase eps svcGet pluginId (modsOf idx pluginId) with
  | (.error e, evts) => (.error e, evts)
  | (.ok _, evts) =>
    match pluginInitOf idx pluginId with
    | none => (.ok (), evts ++ [.pluginStartup pluginId])
    | some pi =>
      match getInitDeps eps svcGet pi.deps pluginId with
      | .error e => (.error e, evts)
      | .ok _ =>
        match pi.funcErr with
        | some cause =>
          (.error (.pluginStartupFailed pluginId cause), evts ++ [.pluginInit pluginId])
        | none => (.ok (), evts ++ [.pluginInit pluginId, .pluginStartup pluginId])

/-- The `Promise.all` over all plugin ids, sequentialized in list order. -/
def runPlugins {I : Type} (eps : EpTable I) (svcGet : String → String → Option I)
    (idx : IndexState I) : List String → Except BackendError Unit × List Event
  | [] => (.ok (), [])
  | pid :: rest =>
    match runPlugin eps svcGet idx pid with
    | (.error e, evts) => (.error e, evts)
    | (.ok _, evts) =>
      let r := runPlugins eps svcGet idx rest
      (r.1, evts ++ r.2)

/-- The inputs of one run: the constructor argument `defaultApiFactories` and
the pre-start `#providedServiceFactories` (by service id), the registrations
of the pre-start `#features`, the features returned by the optional
feature-discovery service (`none` when absent), the behaviour of each
registered service factory, and whether `NODE_ENV` is `test`. -/
structure Inputs (I : Type) where
  defaults : List String
  provided : List String
  features : List (List (Registration I))
  discovered : Option (List (Feature I))
  svcImpl : String → String → Option I
  testMode : Bool

/-- Modelled from the spec: `ServiceRegistry.create(factories).get` (the
registry is imported by the source file but not part of it). A ref resolves
only when a factory for its id was in the list the registry was created
from; the instantiation behaviour itself is the abstract `svcImpl`. -/
def regGet {I : Type} (factoryIds : List String) (svcImpl : String → String → Option I) :
    String → String → Option I :=
  fun refId pluginId => if factoryIds.contains refId then svcImpl refId pluginId else none

/-- The service holder created at the top of `#doStart`, from the default
factories plus the service factories provided before start. Feature
discovery runs after this point and cannot change it. -/
def doStartSvcGet {I : Type} (inp : Inputs I) : String → String → Option I :=
  regGet (inp.defaults ++ inp.provided) inp.svcImpl

/-- The body of `#doStart`, sequentialized: create the service registry, run
feature discovery through `#addFeature`, index all registrations, run every
plugin, then signal the root lifecycle `startup()` and, outside test mode,
install the unhandled-error hooks. The returned trace lists the observable
events of the successful prefix. -/
def doStart {I : Type} (inp : Inputs I) : Except BackendError Unit × List Event :=
  match discoveryPhase ⟨inp.provided, inp.features⟩ inp.discovered with
  | .error e => (.error e, [])
  | .ok cat =>
    match indexPhase cat.features.flatten with
    | .error e => (.error e, [])
    | .ok idx =>
      match runPlugins idx.eps (doStartSvcGet inp) idx (allPluginIds idx) with
      | (.error e, evts) => (.error e, evts)
      | (.ok _, evts) =>
        (.ok (), evts ++ [.rootStartup] ++ if inp.testMode then [] else [.installErrorHooks])

/-- The observable state of a `BackendInitializer` around `start` and `stop`:
whether `#startPromise` has been assigned, the settled outcome of that
promise, whether the process signal handlers and the unhandled-error hooks
were installed, and whether the root lifecycle `shutdown()` has already been
invoked. -/
structure Machine where
  startAttempted : Bool
  startOutcome : Option BackendError
  signalHandlersInstalled : Bool
  errorHooksInstalled : Bool
  rootShutdownCalled : Bool
deriving DecidableEq

/-- A freshly constructed initializer. -/
def initialMachine : Machine :=
  ⟨false, none, false, false, false⟩

/-- The rejection carried by a settled promise, if any. -/
def errOf : Except BackendError Unit → Option BackendError
  | .ok _ => none
  | .error e => some e

/-- `start()`: fail when `#startPromise` is already assigned; otherwise
install the process signal handlers (unconditionally, before `#doStart`
runs), assign the start promise and await it. -/
def start {I : Type} (m : Machine) (inp : Inputs I) : Except BackendError Unit × Machine :=
  if m.startAttempted then (.error .alreadyStarted, m)
  else
    let r := (doStart inp).1
    (r, { m with
      startAttempted := true
      signalHandlersInstalled := true
      errorHooksInstalled := (errOf r).isNone && !inp.testMode
      startOutcome := errOf r })

/-- Modelled from the spec: the root lifecycle service implementation (not
part of the source file). Per the spec its `shutdown()` transitions exactly
once; a second call is rejected with the lifecycle-already-invoked error,
while hook failures during the first call are logged and not re-thrown. -/
def rootShutdown (m : Machine) : Except BackendError Unit × Machine :=
  if m.rootShutdownCalled then (.error .lifecycleAlreadyInvoked, m)
  else (.ok (), { m with rootShutdownCalled := true })

/-- `stop()`: a no-op when `start()` was never called; otherwise await the
start promise (ignoring its rejection) and invoke the root lifecycle
`shutdown()`. Nothing is memoized: every call repeats this. -/
def stop (m : Machine) : Except BackendError Unit × Machine :=
  if !m.startAttempted then (.ok (), m)
  else rootShutdown m

/-- `t` is an interleaving of the lists of `L`: every step of `t` removes the
head of one of the lists of `L`, and `t` ends when all are exhausted. This is
the set of event orders a `Promise.all` over the tasks of `L` can exhibit. -/
inductive Interleave {α : Type} : List (List α) → List α → Prop where
  | nil {L : List (List α)} : (∀ l ∈ L, l = []) → Interleave L []
  | take {L : List (List α)} (i : Fin L.length) {a : α} {l t : List α} :
      L.get i = a :: l → Interleave (L.set i l) t → Interleave L (a :: t)

/-- The node of the module graph corresponding to one module (relationships
reversed, as in `#doStart`). -/
def gnodeOf {I : Type} (m : String × RegInit I) : GNode :=
  ⟨m.1, m.2.consumes, m.2.provides⟩

/-- Modelled from the spec: the orders in which `parallelTopologicalTraversal`
may complete the module visits. A visit completes only after every node
providing an id it consumes has completed, so an edge from the node at
position `i` to the node at position `j` forces `j < i`. -/
def ValidModuleOrder {I : Type} (modules order : List (String × RegInit I)) : Prop :=
  order.Perm modules ∧
    ∀ i j : Fin order.length,
      gEdge (gnodeOf (order.get i)) (gnodeOf (order.get j)) = true → j < i

/-- The event sequence of one per-plugin task that ran to completion, with
its modules visited in the order `order`. -/
def pluginTraceOf (pluginId : String) (order : List String) (withPluginInit : Bool) :
    List Event :=
  order.map (fun mid => Event.moduleInit pluginId mid) ++
    (if withPluginInit then [Event.pluginInit pluginId] else []) ++
    [Event.pluginStartup pluginId]

/-- The per-plugin task of `#doStart` for `pluginId` can produce the event
sequence `tr`: its module graph is acyclic, the modules complete in some
valid traversal order with all dependency resolutions and `init.func` calls
succeeding, then the plugin init (when registered) and the plugin lifecycle
`startup()` follow. -/
def PluginTraceOK {I : Type} (eps : EpTable I) (svcGet : String → String → Option I)
    (idx : IndexState I) (pluginId : String) (tr : List Event) : Prop :=
  ∃ order : List (String × RegInit I),
    ValidModuleOrder (modsOf idx pluginId) order ∧
    detectCircularDependency (moduleGraphNodes (modsOf idx pluginId)) = none ∧
    (∀ m ∈ modsOf idx pluginId,
      (∃ res, getInitDeps eps svcGet m.2.deps pluginId = .ok res) ∧ m.2.funcErr = none) ∧
    (∀ pi, pluginInitOf idx pluginId = some pi →
      (∃ res, getInitDeps eps svcGet pi.deps pluginId = .ok res) ∧ pi.funcErr = none) ∧
    tr = pluginTraceOf pluginId (order.map (·.1)) (pluginInitOf idx pluginId).isSome

/-- A successful `#doStart` with catalog `cat` and registration index `idx`
can produce the event sequence `tr`: the per-plugin tasks interleave freely,
the root lifecycle `startup()` follows once all of them finished, and the
unhandled-error hooks are installed last, outside test mode only. -/
def DoStartTraceIdx {I : Type} (inp : Inputs I) (cat : CatalogState I)
    (idx : IndexState I) (tr : List Event) : Prop :=
  discoveryPhase ⟨inp.provided, inp.features⟩ inp.discovered = .ok cat ∧
  indexPhase cat.features.flatten = .ok idx ∧
  ∃ trs : List (List Event), ∃ hlen : trs.length = (allPluginIds idx).length,
    (∀ k : Fin trs.length,
      PluginTraceOK idx.eps (doStartSvcGet inp) idx
        ((allPluginIds idx).get (Fin.cast hlen k)) (trs.get k)) ∧
    ∃ t : List Event, Interleave trs t ∧
      tr = t ++ [Event.rootStartup] ++ (if inp.testMode then [] else [Event.installErrorHooks])

/-- A successful `#doStart` can produce the event sequence `tr`. -/
def DoStartTrace {I : Type} (inp : Inputs I) (tr : List Event) : Prop :=
  ∃ cat idx, DoStartTraceIdx inp cat idx tr

/-- A successful `start()` on a not-yet-started initializer can produce the
event sequence `tr`: the process signal handlers are installed first, then
`#doStart` runs. -/
def StartTrace {I : Type} (m : Machine) (inp : Inputs I) (tr : List Event) : Prop :=
  m.startAttempted = false ∧
    ∃ t, DoStartTrace inp t ∧ tr = Event.installSignalHandlers :: t

/-- The refs of `deps` that resolve neither to an extension point nor to a
service, collected in first-occurrence order onto an initial missing set
`ms` — the contents of the `missingRefs` set after the `#getInitDeps` loop. -/
def missFold {I : Type} (eps : EpTable I) (svcGet : String → String → Option I)
    (pluginId : String) (ms : List String) (deps : List (String × String)) : List String :=
  deps.foldl (fun ms p =>
    if (lookupEp eps p.2).isNone && (svcGet p.2 pluginId).isNone then addMissing ms p.2
    else ms) ms

/-- Fixture: a run with no features, no discovery service, outside test mode. -/
def emptyInputs : Inputs Nat :=
  ⟨[], [], [], none, fun _ _ => none, false⟩

/-- Fixture: plugin `a` registers extension point `ext.a`; module `m` of
plugin `b` lists `ext.a` in its `init.deps`. -/
def c1Inp : Inputs Nat :=
  ⟨[], [],
    [[.plugin "a" [("ext.a", 7)] [] none,
      .module "b" "m" [] [("x", "ext.a")] none]],
    none, fun _ _ => none, false⟩

/-- Fixture: a plugin and one module for it, nothing else. -/
def c2Inp : Inputs Nat :=
  ⟨[], [], [[.plugin "p" [] [] none, .module "p" "m" [] [] none]],
    none, fun _ _ => none, false⟩

/-- Fixture: two modules of plugin `p` whose extension points feed each
other, producing a cyclic module graph. -/
def c3Inp : Inputs Nat :=
  ⟨[], [],
    [[.module "p" "m1" [("x", 1)] [("d", "y")] none,
      .module "p" "m2" [("y", 2)] [("d", "x")] none]],
    none, fun _ _ => none, false⟩

/-- Fixture: a module whose only dep resolves to nothing, so that start
fails. -/
def c6Inp : Inputs Nat :=
  ⟨[], [], [[.module "p" "m" [] [("x", "svc.missing")] none]],
    none, fun _ _ => none, false⟩

/-- Fixture: a module registered without its plugin. -/
def c8Inp : Inputs Nat :=
  ⟨[], [], [[.module "p" "m" [] [] none]], none, fun _ _ => none, false⟩

/-- Fixture: a run in test mode with no features. -/
def c5Inp : Inputs Nat :=
  ⟨[], [], [], none, fun _ _ => none, true⟩

/-- Fixture: one default service, and a discovery service returning one
service factory for a fresh id. -/
def c9Inp : Inputs Nat :=
  ⟨["svc.a"], [], [],
    some [.serviceFactory backendFeatureType "svc.x"],
    fun _ _ => some 1, false⟩

/-- Fixture: plugin `a` registers extension point `ext.a`; plugin `b` lists
`ext.a` in its own `init.deps`. -/
def c10Inp : Inputs Nat :=
  ⟨[], [],
    [[.plugin "a" [("ext.a", 7)] [] none,
      .plugin "b" [] [("x", "ext.a")] none]],
    none, fun _ _ => none, false⟩

/-- Fixture: the registration index that `#doStart` builds for `c2Inp`. -/
def c2Idx : IndexState Nat :=
  ⟨[], [("p", ⟨[], [], [], none⟩)], [("p", [("m", ⟨[], [], [], none⟩)])]⟩

/-- Fixture: the per-plugin event sequence of `c2Inp` followed by the root
startup and the error hooks. -/
def c2Trace : List Event :=
  [.moduleInit "p" "m", .pluginInit "p", .pluginStartup "p", .rootStartup, .installErrorHooks]

/-- Fixture: the registration index that `#doStart` builds for `c8Inp`. -/
def c8Idx : IndexState Nat :=
  ⟨[], [], [("p", [("m", ⟨[], [], [], none⟩)])]⟩

/-- Fixture: the registration index that `#doStart` builds for `c3Inp`. -/
def c3Idx : IndexState Nat :=
  ⟨[("x", ⟨1, "p"⟩), ("y", ⟨2, "p"⟩)], [],
    [("p", [("m1", ⟨["x"], ["y"], [("d", "y")], none⟩),
            ("m2", ⟨["y"], ["x"], [("d", "x")], none⟩)])]⟩

/-- Fixture: the event sequence of `c8Inp`, with no plugin-init event. -/
def c8Trace : List Event :=
  [.moduleInit "p" "m", .pluginStartup "p", .rootStartup, .installErrorHooks]

theorem mem_addMissing {r x : String} {ms : List String} :
    r ∈ addMissing ms x ↔ r ∈ ms ∨ r = x := by
  unfold addMissing
  by_cases h : ms.contains x
  · rw [if_pos h]
    have hx : x ∈ ms := by
      simpa using h
    constructor
    · exact .inl
    · rintro (hr | rfl)
      · exact hr
      · exact hx
  · rw [if_neg h]
    simp

theorem mem_missFold {I : Type} (eps : EpTable I) (svcGet : String → String → Option I)
    (pluginId : String) :
    ∀ (deps : List (String × String)) (ms : List String) (r : String),
      r ∈ missFold eps svcGet pluginId ms deps ↔
        r ∈ ms ∨ ∃ n, (n, r) ∈ deps ∧ lookupEp eps r = none ∧ svcGet r pluginId = none := by
  intro deps
  induction deps with
  | nil => simp [missFold]
  | cons hd tl ih =>
    intro ms r
    obtain ⟨n, refId⟩ := hd
    have hstep : missFold eps svcGet pluginId ms ((n, refId) :: tl) =
        missFold eps svcGet pluginId
          (if (lookupEp eps refId).isNone && (svcGet refId pluginId).isNone then
            addMissing ms refId else ms) tl := rfl
    rw [hstep]
    by_cases h1 : ((lookupEp eps refId).isNone && (svcGet refId pluginId).isNone) = true
    · rcases (Bool.and_eq_true _ _).mp h1 with ⟨hep, hsv⟩
      rw [Option.isNone_iff_eq_none] at hep hsv
      rw [if_pos h1, ih, mem_addMissing]
      constructor
      · rintro ((hr | rfl) | ⟨n', hmem, h2, h3⟩)
        · exact .inl hr
        · exact .inr ⟨n, .head _, hep, hsv⟩
        · exact .inr ⟨n', .tail _ hmem, h2, h3⟩
      · rintro (hr | ⟨n', hmem, h2, h3⟩)
        · exact .inl (.inl hr)
        · rcases List.mem_cons.mp hmem with heq | hmem'
          · injection heq with h4 h5
            subst h5
            exact .inl (.inr rfl)
          · exact .inr ⟨n', hmem', h2, h3⟩
    · rw [if_neg h1, ih]
      have hni : ¬(lookupEp eps refId = none ∧ svcGet refId pluginId = none) := by
        intro hc
        apply h1
        simp [hc.1, hc.2]
      constructor
      · rintro (hr | ⟨n', hmem, h2, h3⟩)
        · exact .inl hr
        · exact .inr ⟨n', .tail _ hmem, h2, h3⟩
      · rintro (hr | ⟨n', hmem, h2, h3⟩)
        · exact .inl hr
        · rcases List.mem_cons.mp hmem with heq | hmem'
          · injection heq with h4 h5
            subst h5
            exact absurd ⟨h2, h3⟩ hni
          · exact .inr ⟨n', hmem', h2, h3⟩

theorem getInitDepsGo_nil {I : Type} (eps : EpTable I) (svcGet : String → String → Option I)
    (pluginId : String) (acc : List (String × I)) (missing : List String) :
    getInitDepsGo eps svcGet pluginId [] acc missing =
      if missing.isEmpty then .ok acc else .error (.unresolvedDependencies missing) := rfl

theorem getInitDepsGo_cons_ep_own {I : Type} {eps : EpTable I}
    {svcGet : String → String → Option I} {pluginId name refId : String} {ep : ExtPoint I}
    (tl : List (String × String)) (acc : List (String × I)) (missing : List String)
    (hl : lookupEp eps refId = some ep) (ho : ep.pluginId = pluginId) :
    getInitDepsGo eps svcGet pluginId ((name, refId) :: tl) acc missing =
      getInitDepsGo eps svcGet pluginId tl (acc ++ [(name, ep.impl)]) missing := by
  simp [getInitDepsGo, hl, ho]

theorem getInitDepsGo_cons_ep_foreign {I : Type} {eps : EpTable I}
    {svcGet : String → String → Option I} {pluginId name refId : String} {ep : ExtPoint I}
    (tl : List (String × String)) (acc : List (String × I)) (missing : List String)
    (hl : lookupEp eps refId = some ep) (ho : ep.pluginId ≠ pluginId) :
    getInitDepsGo eps svcGet pluginId ((name, refId) :: tl) acc missing =
      .error (.extensionPointOwnership ep.pluginId pluginId) := by
  simp [getInitDepsGo, hl, ho]

theorem getInitDepsGo_cons_svc {I : Type} {eps : EpTable I}
    {svcGet : String → String → Option I} {pluginId name refId : String} {impl : I}
    (tl : List (String × String)) (acc : List (String × I)) (missing : List String)
    (hl : lookupEp eps refId = none) (hs : svcGet refId pluginId = some impl) :
    getInitDepsGo eps svcGet pluginId ((name, refId) :: tl) acc missing =
      getInitDepsGo eps svcGet pluginId tl (acc ++ [(name, impl)]) missing := by
  simp [getInitDepsGo, hl, hs]

theorem getInitDepsGo_cons_missing {I : Type} {eps : EpTable I}
    {svcGet : String → String → Option I} {pluginId name refId : String}
    (tl : List (String × String)) (acc : List (String × I)) (missing : List String)
    (hl : lookupEp eps refId = none) (hs : svcGet refId pluginId = none) :
    getInitDepsGo eps svcGet pluginId ((name, refId) :: tl) acc missing =
      getInitDepsGo eps svcGet pluginId tl acc (addMissing missing refId) := by
  simp [getInitDepsGo, hl, hs]

theorem getInitDepsGo_acc_mono {I : Type} (eps : EpTable I) (svcGet : String → String → Option I)
    (pluginId : String) :
    ∀ (deps : List (String × String)) (acc : List (String × I)) (missing : List String)
      (res : List (String × I)),
      getInitDepsGo eps svcGet pluginId deps acc missing = .ok res →
      ∃ extra, res = acc ++ extra := by
  intro deps
  induction deps with
  | nil =>
    intro acc missing res h
    rw [getInitDepsGo_nil] at h
    split at h
    · cases h
      exact ⟨[], by simp⟩
    · cases h
  | cons hd tl ih =>
    intro acc missing res h
    obtain ⟨name, refId⟩ := hd
    cases hl : lookupEp eps refId with
    | some ep =>
      by_cases ho : ep.pluginId = pluginId
      · rw [getInitDepsGo_cons_ep_own tl acc missing hl ho] at h
        obtain ⟨extra, rfl⟩ := ih _ _ _ h
        exact ⟨(name, ep.impl) :: extra, by simp⟩
      · rw [getInitDepsGo_cons_ep_foreign tl acc missing hl ho] at h
        cases h
    | none =>
      cases hs : svcGet refId pluginId with
      | some impl =>
        rw [getInitDepsGo_cons_svc tl acc missing hl hs] at h
        obtain ⟨extra, rfl⟩ := ih _ _ _ h
        exact ⟨(name, impl) :: extra, by simp⟩
      | none =>
        rw [getInitDepsGo_cons_missing tl acc missing hl hs] at h
        exact ih _ _ _ h

theorem getInitDepsGo_ownership {I : Type} (eps : EpTable I)
    (svcGet : String → String → Option I) (pluginId : String) :
    ∀ (deps : List (String × String)) (acc : List (String × I)) (missing : List String)
      (name refId : String) (ep : ExtPoint I),
      (name, refId) ∈ deps → lookupEp eps refId = some ep → ep.pluginId ≠ pluginId →
      ∃ q, q ≠ pluginId ∧
        getInitDepsGo eps svcGet pluginId deps acc missing =
          .error (.extensionPointOwnership q pluginId) := by
  intro deps
  induction deps with
  | nil =>
    intro _ _ _ _ _ hmem
    cases hmem
  | cons hd tl ih =>
    intro acc missing name refId ep hmem hl hne
    obtain ⟨n0, r0⟩ := hd
    cases hl0 : lookupEp eps r0 with
    | some ep0 =>
      by_cases ho : ep0.pluginId = pluginId
      · rw [getInitDepsGo_cons_ep_own tl acc missing hl0 ho]
        rcases List.mem_cons.mp hmem with heq | hmem'
        · injection heq with e1 e2
          subst e1
          subst e2
          rw [hl0] at hl
          injection hl with e3
          subst e3
          exact absurd ho hne
        · exact ih _ _ _ _ _ hmem' hl hne
      · exact ⟨ep0.pluginId, ho, getInitDepsGo_cons_ep_foreign tl acc missing hl0 ho⟩
    | none =>
      cases hs0 : svcGet r0 pluginId with
      | some impl =>
        rw [getInitDepsGo_cons_svc tl acc missing hl0 hs0]
        rcases List.mem_cons.mp hmem with heq | hmem'
        · injection heq with e1 e2
          subst e1
          subst e2
          rw [hl0] at hl
          cases hl
        · exact ih _ _ _ _ _ hmem' hl hne
      | none =>
        rw [getInitDepsGo_cons_missing tl acc missing hl0 hs0]
        rcases List.mem_cons.mp hmem with heq | hmem'
        · injection heq with e1 e2
          subst e1
          subst e2
          rw [hl0] at hl
          cases hl
        · exact ih _ _ _ _ _ hmem' hl hne

theorem getInitDepsGo_bound {I : Type} (eps : EpTable I)
    (svcGet : String → String → Option I) (pluginId : String) :
    ∀ (deps : List (String × String)) (acc : List (String × I)) (missing : List String)
      (name refId : String) (ep : ExtPoint I) (res : List (String × I)),
      (name, refId) ∈ deps → lookupEp eps refId = some ep → ep.pluginId = pluginId →
      getInitDepsGo eps svcGet pluginId deps acc missing = .ok res →
      (name, ep.impl) ∈ res := by
  intro deps
  induction deps with
  | nil =>
    intro _ _ _ _ _ _ hmem
    cases hmem
  | cons hd tl ih =>
    intro acc missing name refId ep res hmem hl ho hres
    obtain ⟨n0, r0⟩ := hd
    cases hl0 : lookupEp eps r0 with
    | some ep0 =>
      by_cases ho0 : ep0.pluginId = pluginId
      · rw [getInitDepsGo_cons_ep_own tl acc missing hl0 ho0] at hres
        rcases List.mem_cons.mp hmem with heq | hmem'
        · injection heq with e1 e2
          subst e1
          subst e2
          rw [hl0] at hl
          injection hl with e3
          subst e3
          obtain ⟨extra, rfl⟩ := getInitDepsGo_acc_mono eps svcGet pluginId _ _ _ _ hres
          simp
        · exact ih _ _ _ _ _ _ hmem' hl ho hres
      · rw [getInitDepsGo_cons_ep_foreign tl acc missing hl0 ho0] at hres
        cases hres
    | none =>
      cases hs0 : svcGet r0 pluginId with
      | some impl =>
        rw [getInitDepsGo_cons_svc tl acc missing hl0 hs0] at hres
        rcases List.mem_cons.mp hmem with heq | hmem'
        · injection heq with e1 e2
          subst e1
          subst e2
          rw [hl0] at hl
          cases hl
        · exact ih _ _ _ _ _ _ hmem' hl ho hres
      | none =>
        rw [getInitDepsGo_cons_missing tl acc missing hl0 hs0] at hres
        rcases List.mem_cons.mp hmem with heq | hmem'
        · injection heq with e1 e2
          subst e1
          subst e2
          rw [hl0] at hl
          cases hl
        · exact ih _ _ _ _ _ _ hmem' hl ho hres

theorem getInitDepsGo_char {I : Type} (eps : EpTable I)
    (svcGet : String → String → Option I) (pluginId : String) :
    ∀ (deps : List (String × String)) (acc : List (String × I)) (missing : List String),
      (∀ n r e, (n, r) ∈ deps → lookupEp eps r = some e → e.pluginId = pluginId) →
      (missFold eps svcGet pluginId missing deps = [] →
        ∃ res, getInitDepsGo eps svcGet pluginId deps acc missing = .ok res) ∧
      (missFold eps svcGet pluginId missing deps ≠ [] →
        getInitDepsGo eps svcGet pluginId deps acc missing =
          .error (.unresolvedDependencies (missFold eps svcGet pluginId missing deps))) := by
  intro deps
  induction deps with
  | nil =>
    intro acc missing _
    have hm : missFold eps svcGet pluginId missing [] = missing := rfl
    rw [hm, getInitDepsGo_nil]
    constructor
    · intro h0
      subst h0
      exact ⟨acc, rfl⟩
    · intro hne
      rw [if_neg (by simpa [List.isEmpty_iff] using hne)]
  | cons hd tl ih =>
    intro acc missing hown
    obtain ⟨n0, r0⟩ := hd
    have howntl : ∀ n r e, (n, r) ∈ tl → lookupEp eps r = some e → e.pluginId = pluginId :=
      fun n r e hm => hown n r e (.tail _ hm)
    cases hl0 : lookupEp eps r0 with
    | some ep0 =>
      have ho0 : ep0.pluginId = pluginId := hown n0 r0 ep0 (.head _) hl0
      have hm : missFold eps svcGet pluginId missing ((n0, r0) :: tl) =
          missFold eps svcGet pluginId missing tl := by
        simp [missFold, hl0]
      rw [hm, getInitDepsGo_cons_ep_own tl acc missing hl0 ho0]
      exact ih _ _ howntl
    | none =>
      cases hs0 : svcGet r0 pluginId with
      | some impl =>
        have hm : missFold eps svcGet pluginId missing ((n0, r0) :: tl) =
            missFold eps svcGet pluginId missing tl := by
          simp [missFold, hl0, hs0]
        rw [hm, getInitDepsGo_cons_svc tl acc missing hl0 hs0]
        exact ih _ _ howntl
      | none =>
        have hm : missFold eps svcGet pluginId missing ((n0, r0) :: tl) =
            missFold eps svcGet pluginId (addMissing missing r0) tl := by
          simp [missFold, hl0, hs0]
        rw [hm, getInitDepsGo_cons_missing tl acc missing hl0 hs0]
        exact ih _ _ howntl

theorem runModulesSeq_ok {I : Type} (eps : EpTable I) (svcGet : String → String → Option I)
    (pluginId : String) :
    ∀ (mods : List (String × RegInit I)),
      (∀ m ∈ mods,
        (∃ res, getInitDeps eps svcGet m.2.deps pluginId = .ok res) ∧ m.2.funcErr = none) →
      ∃ evts, runModulesSeq eps svcGet pluginId mods = (.ok (), evts) ∧
        ∀ ev ∈ evts, ∃ mid, ev = Event.moduleInit pluginId mid := by
  intro mods
  induction mods with
  | nil =>
    intro _
    exact ⟨[], rfl, by simp⟩
  | cons hd tl ih =>
    intro hok
    obtain ⟨mid, mi⟩ := hd
    obtain ⟨⟨res, hres⟩, hfe⟩ := hok (mid, mi) (.head _)
    obtain ⟨evts, heq, hev⟩ := ih (fun m hm => hok m (.tail _ hm))
    have hfe' : mi.funcErr = none := hfe
    have hres' : getInitDeps eps svcGet mi.deps pluginId = .ok res := hres
    refine ⟨Event.moduleInit pluginId mid :: evts, ?_, ?_⟩
    · simp [runModulesSeq, hres', hfe', heq]
    · intro ev hmem
      rcases List.mem_cons.mp hmem with rfl | hmem'
      · exact ⟨mid, rfl⟩
      · exact hev ev hmem'

theorem runModulesSeq_reach_error {I : Type} (eps : EpTable I)
    (svcGet : String → String → Option I) (pluginId : String) (e : BackendError) :
    ∀ (before : List (String × RegInit I)) (mid : String) (mi : RegInit I)
      (after : List (String × RegInit I)),
      (∀ m ∈ before,
        (∃ res, getInitDeps eps svcGet m.2.deps pluginId = .ok res) ∧ m.2.funcErr = none) →
      getInitDeps eps svcGet mi.deps pluginId = .error e →
      ∃ evts,
        runModulesSeq eps svcGet pluginId (before ++ (mid, mi) :: after) = (.error e, evts) ∧
        ∀ ev ∈ evts, ∃ mid', ev = Event.moduleInit pluginId mid' := by
  intro before
  induction before with
  | nil =>
    intro mid mi after _ herr
    exact ⟨[], by simp [runModulesSeq, herr], by simp⟩
  | cons hd tl ih =>
    intro mid mi after hok herr
    obtain ⟨mid0, mi0⟩ := hd
    obtain ⟨⟨res, hres⟩, hfe⟩ := hok (mid0, mi0) (.head _)
    obtain ⟨evts, heq, hev⟩ := ih mid mi after (fun m hm => hok m (.tail _ hm)) herr
    have hfe' : mi0.funcErr = none := hfe
    have hres' : getInitDeps eps svcGet mi0.deps pluginId = .ok res := hres
    refine ⟨Event.moduleInit pluginId mid0 :: evts, ?_, ?_⟩
    · simp [runModulesSeq, hres', hfe', heq]
    · intro ev hmem
      rcases List.mem_cons.mp hmem with rfl | hmem'
      · exact ⟨mid0, rfl⟩
      · exact hev ev hmem'

theorem runPlugin_module_error {I : Type} (eps : EpTable I)
    (svcGet : String → String → Option I) (idx : IndexState I) (pluginId : String)
    (e : BackendError) (before : List (String × RegInit I)) (mid : String) (mi : RegInit I)
    (after : List (String × RegInit I)) :
    detectCircularDependency (moduleGraphNodes (modsOf idx pluginId)) = none →
    modsOf idx pluginId = before ++ (mid, mi) :: after →
    (∀ m ∈ before,
      (∃ res, getInitDeps eps svcGet m.2.deps pluginId = .ok res) ∧ m.2.funcErr = none) →
    getInitDeps eps svcGet mi.deps pluginId = .error e →
    ∃ evts, runPlugin eps svcGet idx pluginId = (.error e, evts) ∧
      ∀ ev ∈ evts, ∃ mid', ev = Event.moduleInit pluginId mid' := by
  intro hdet hsplit hok herr
  obtain ⟨evts, heq, hev⟩ :=
    runModulesSeq_reach_error eps svcGet pluginId e before mid mi after hok herr
  refine ⟨evts, ?_, hev⟩
  rw [← hsplit] at heq
  simp [runPlugin, runModulesPhase, hdet, heq]

theorem runPlugin_pluginDeps_error {I : Type} (eps : EpTable I)
    (svcGet : String → String → Option I) (idx : IndexState I) (pluginId : String)
    (e : BackendError) (pi : RegInit I) :
    detectCircularDependency (moduleGraphNodes (modsOf idx pluginId)) = none →
    (∀ m ∈ modsOf idx pluginId,
      (∃ res, getInitDeps eps svcGet m.2.deps pluginId = .ok res) ∧ m.2.funcErr = none) →
    pluginInitOf idx pluginId = some pi →
    getInitDeps eps svcGet pi.deps pluginId = .error e →
    ∃ evts, runPlugin eps svcGet idx pluginId = (.error e, evts) ∧
      ∀ ev ∈ evts, ∃ mid', ev = Event.moduleInit pluginId mid' := by
  intro hdet hok hpi herr
  obtain ⟨evts, heq, hev⟩ := runModulesSeq_ok eps svcGet pluginId _ hok
  refine ⟨evts, ?_, hev⟩
  simp [runPlugin, runModulesPhase, hdet, heq, hpi, herr]

theorem runPlugins_reach_error {I : Type} (eps : EpTable I)
    (svcGet : String → String → Option I) (idx : IndexState I) (e : BackendError) :
    ∀ (before : List String) (p : String) (after : List String),
      (∀ q ∈ before, ∃ evts, runPlugin eps svcGet idx q = (.ok (), evts)) →
      (runPlugin eps svcGet idx p).1 = .error e →
      ∃ evts, runPlugins eps svcGet idx (before ++ p :: after) = (.error e, evts) := by
  intro before
  induction before with
  | nil =>
    intro p after _ herr
    rcases hrp : runPlugin eps svcGet idx p with ⟨r, evts⟩
    rw [hrp] at herr
    simp only [] at herr
    subst herr
    exact ⟨evts, by simp [runPlugins, hrp]⟩
  | cons q tl ih =>
    intro p after hok herr
    obtain ⟨evts0, heq0⟩ := hok q (.head _)
    obtain ⟨evts, heq⟩ := ih p after (fun q' hm => hok q' (.tail _ hm)) herr
    exact ⟨evts0 ++ evts, by simp [runPlugins, heq0, heq]⟩

theorem doStart_error_of_runPlugin {I : Type} (inp : Inputs I) (cat : CatalogState I)
    (idx : IndexState I) (e : BackendError) (before : List String) (p : String)
    (after : List String) :
    discoveryPhase ⟨inp.provided, inp.features⟩ inp.discovered = .ok cat →
    indexPhase cat.features.flatten = .ok idx →
    allPluginIds idx = before ++ p :: after →
    (∀ q ∈ before, ∃ evts, runPlugin idx.eps (doStartSvcGet inp) idx q = (.ok (), evts)) →
    (runPlugin idx.eps (doStartSvcGet inp) idx p).1 = .error e →
    (doStart inp).1 = .error e := by
  intro hdisc hidx hsplit hok herr
  obtain ⟨evts, heq⟩ :=
    runPlugins_reach_error idx.eps (doStartSvcGet inp) idx e before p after hok herr
  rw [← hsplit] at heq
  simp [doStart, hdisc, hidx, heq]

theorem start_fresh {I : Type} (m : Machine) (inp : Inputs I)
    (h : m.startAttempted = false) : (start m inp).1 = (doStart inp).1 := by
  simp [start, h]

/-- C1: for every module `m` of plugin `P` whose `init.deps` reference an
extension point recorded in the extension-point table as owned by plugin `Q`,
if `P ≠ Q` then dependency resolution — and with it `start()` — fails with
the extension-point ownership violation, and if `P = Q` the dep name is bound
to the recorded implementation in the resolved deps map. -/
theorem claim_C1 {I : Type} (inp : Inputs I) (cat : CatalogState I) (idx : IndexState I)
    (pid mid : String) (mi : RegInit I) (name refId : String) (ep : ExtPoint I)
    (hdisc : discoveryPhase ⟨inp.provided, inp.features⟩ inp.discovered = .ok cat)
    (hidx : indexPhase cat.features.flatten = .ok idx)
    (hmod : (mid, mi) ∈ modsOf idx pid)
    (hdep : (name, refId) ∈ mi.deps)
    (hep : lookupEp idx.eps refId = some ep) :
    (ep.pluginId ≠ pid →
      (∃ q, q ≠ pid ∧
        getInitDeps idx.eps (doStartSvcGet inp) mi.deps pid =
          .error (.extensionPointOwnership q pid)) ∧
      (∀ before after mbefore mafter,
        allPluginIds idx = before ++ pid :: after →
        (∀ q ∈ before, ∃ evts, runPlugin idx.eps (doStartSvcGet inp) idx q = (.ok (), evts)) →
        modsOf idx pid = mbefore ++ (mid, mi) :: mafter →
        (∀ m ∈ mbefore,
          (∃ res, getInitDeps idx.eps (doStartSvcGet inp) m.2.deps pid = .ok res) ∧
            m.2.funcErr = none) →
        detectCircularDependency (moduleGraphNodes (modsOf idx pid)) = none →
        ∃ q, q ≠ pid ∧
          (start initialMachine inp).1 = .error (.extensionPointOwnership q pid))) ∧
    (ep.pluginId = pid →
      ∀ res, getInitDeps idx.eps (doStartSvcGet inp) mi.deps pid = .ok res →
        (name, ep.impl) ∈ res) := by
  constructor
  · intro hne
    obtain ⟨q, hq, herr⟩ := getInitDepsGo_ownership idx.eps (doStartSvcGet inp) pid
      mi.deps [] [] name refId ep hdep hep hne
    refine ⟨⟨q, hq, herr⟩, ?_⟩
    intro before after mbefore mafter hsplit hbok hmsplit hmbok hdet
    obtain ⟨evts, heq, _⟩ := runPlugin_module_error idx.eps (doStartSvcGet inp) idx pid
      _ mbefore mid mi mafter hdet hmsplit hmbok herr
    refine ⟨q, hq, ?_⟩
    rw [start_fresh initialMachine inp rfl]
    exact doStart_error_of_runPlugin inp cat idx _ before pid after hdisc hidx hsplit hbok
      (by rw [heq])
  · intro ho res hres
    exact getInitDepsGo_bound idx.eps (doStartSvcGet inp) pid mi.deps [] []
      name refId ep res hdep hep ho hres

theorem claim_C1_witness :
    ∃ q, q ≠ "b" ∧ (start initialMachine c1Inp).1 = .error (.extensionPointOwnership q "b") := by
  have h := claim_C1 (I := Nat) c1Inp ⟨c1Inp.provided, c1Inp.features⟩
    ⟨[("ext.a", ⟨7, "a"⟩)], [("a", ⟨["ext.a"], [], [], none⟩)],
      [("b", [("m", ⟨[], ["ext.a"], [("x", "ext.a")], none⟩)])]⟩
    "b" "m" ⟨[], ["ext.a"], [("x", "ext.a")], none⟩ "x" "ext.a" ⟨7, "a"⟩
    rfl (by decide) (by decide) (by decide) (by decide)
  refine (h.1 (by decide)).2 ["a"] [] [] [] (by decide) ?_ (by decide) ?_ (by decide)
  · intro q hq
    have hq' : q = "a" := by simpa using hq
    subst hq'
    exact ⟨[.pluginInit "a", .pluginStartup "a"], by decide⟩
  · intro m hm
    cases hm

/-- C7: when resolving `init.deps`, every ref that is neither a registered
extension point nor a resolvable service is collected, and if any ref was
missing, resolution fails exactly once with a single unresolved-dependencies
error listing exactly the missing refs, rather than failing per item; with
no missing ref (and no ownership violation) resolution succeeds. -/
theorem claim_C7 {I : Type} (eps : EpTable I) (svcGet : String → String → Option I)
    (deps : List (String × String)) (pluginId : String)
    (hown : ∀ n r e, (n, r) ∈ deps → lookupEp eps r = some e → e.pluginId = pluginId) :
    ((∃ n r, (n, r) ∈ deps ∧ lookupEp eps r = none ∧ svcGet r pluginId = none) →
      ∃ ms, getInitDeps eps svcGet deps pluginId = .error (.unresolvedDependencies ms) ∧
        ∀ r, r ∈ ms ↔ ∃ n, (n, r) ∈ deps ∧ lookupEp eps r = none ∧ svcGet r pluginId = none) ∧
    ((¬∃ n r, (n, r) ∈ deps ∧ lookupEp eps r = none ∧ svcGet r pluginId = none) →
      ∃ res, getInitDeps eps svcGet deps pluginId = .ok res) := by
  have hchar := getInitDepsGo_char eps svcGet pluginId deps [] [] hown
  have hmem := fun r => mem_missFold eps svcGet pluginId deps [] r
  constructor
  · rintro ⟨n, r, hm, h1, h2⟩
    have hne : missFold eps svcGet pluginId [] deps ≠ [] :=
      List.ne_nil_of_mem ((hmem r).mpr (.inr ⟨n, hm, h1, h2⟩))
    refine ⟨missFold eps svcGet pluginId [] deps, hchar.2 hne, ?_⟩
    intro r'
    rw [hmem r']
    simp
  · intro hno
    refine hchar.1 ?_
    by_contra hne
    obtain ⟨r, hr⟩ := List.exists_mem_of_ne_nil _ hne
    rcases (hmem r).mp hr with hfalse | ⟨n, hm, h1, h2⟩
    · cases hfalse
    · exact hno ⟨n, r, hm, h1, h2⟩

theorem claim_C7_witness :
    ∃ ms,
      getInitDeps ([] : EpTable Nat) (fun _ _ => none)
          [("a", "s1"), ("b", "s2"), ("c", "s1")] "p" =
        .error (.unresolvedDependencies ms) ∧
      ∀ r, r ∈ ms ↔ ∃ n, (n, r) ∈ [("a", "s1"), ("b", "s2"), ("c", "s1")] ∧
        lookupEp ([] : EpTable Nat) r = none ∧ (none : Option Nat) = none := by
  have h := claim_C7 ([] : EpTable Nat) (fun _ _ => none)
    [("a", "s1"), ("b", "s2"), ("c", "s1")] "p"
    (by intro n r e _ hl; simp [lookupEp] at hl)
  exact h.1 ⟨"a", "s1", by decide, rfl, rfl⟩

/-- C10: the cross-plugin extension-point ownership check is enforced for
plugin-kind inits as well: if a plugin's own `init.deps` reference an
extension point recorded as owned by a different plugin, the per-plugin task
fails with the same ownership-violation error without emitting the
plugin-init event (so `init.func` was not invoked), and `start()` fails with
that error. -/
theorem claim_C10 {I : Type} (inp : Inputs I) (cat : CatalogState I) (idx : IndexState I)
    (pid : String) (pi : RegInit I) (name refId : String) (ep : ExtPoint I)
    (hdisc : discoveryPhase ⟨inp.provided, inp.features⟩ inp.discovered = .ok cat)
    (hidx : indexPhase cat.features.flatten = .ok idx)
    (hpi : pluginInitOf idx pid = some pi)
    (hdep : (name, refId) ∈ pi.deps)
    (hep : lookupEp idx.eps refId = some ep)
    (hne : ep.pluginId ≠ pid)
    (hdet : detectCircularDependency (moduleGraphNodes (modsOf idx pid)) = none)
    (hmods : ∀ m ∈ modsOf idx pid,
      (∃ res, getInitDeps idx.eps (doStartSvcGet inp) m.2.deps pid = .ok res) ∧
        m.2.funcErr = none) :
    ∃ q, q ≠ pid ∧
      (runPlugin idx.eps (doStartSvcGet inp) idx pid).1 =
        .error (.extensionPointOwnership q pid) ∧
      Event.pluginInit pid ∉ (runPlugin idx.eps (doStartSvcGet inp) idx pid).2 ∧
      ∀ before after,
        allPluginIds idx = before ++ pid :: after →
        (∀ q' ∈ before,
          ∃ evts, runPlugin idx.eps (doStartSvcGet inp) idx q' = (.ok (), evts)) →
        (start initialMachine inp).1 = .error (.extensionPointOwnership q pid) := by
  obtain ⟨q, hq, herr⟩ := getInitDepsGo_ownership idx.eps (doStartSvcGet inp) pid
    pi.deps [] [] name refId ep hdep hep hne
  obtain ⟨evts, heq, hev⟩ := runPlugin_pluginDeps_error idx.eps (doStartSvcGet inp) idx pid
    _ pi hdet hmods hpi herr
  refine ⟨q, hq, by rw [heq], ?_, ?_⟩
  · rw [heq]
    intro hmem
    obtain ⟨mid', hmid⟩ := hev _ hmem
    exact Event.noConfusion hmid
  · intro before after hsplit hbok
    rw [start_fresh initialMachine inp rfl]
    exact doStart_error_of_runPlugin inp cat idx _ before pid after hdisc hidx hsplit hbok
      (by rw [heq])

theorem claim_C10_witness :
    ∃ q, q ≠ "b" ∧ (start initialMachine c10Inp).1 = .error (.extensionPointOwnership q "b") := by
  have h := claim_C10 (I := Nat) c10Inp ⟨c10Inp.provided, c10Inp.features⟩
    ⟨[("ext.a", ⟨7, "a"⟩)],
      [("a", ⟨["ext.a"], [], [], none⟩), ("b", ⟨[], ["ext.a"], [("x", "ext.a")], none⟩)], []⟩
    "b" ⟨[], ["ext.a"], [("x", "ext.a")], none⟩ "x" "ext.a" ⟨7, "a"⟩
    rfl (by decide) (by decide) (by decide) (by decide) (by decide) (by decide)
    (by intro m hm; cases hm)
  obtain ⟨q, hq, _, _, hrun⟩ := h
  refine ⟨q, hq, hrun ["a"] [] (by decide) ?_⟩
  intro q' hq'
  have hq'' : q' = "a" := by simpa using hq'
  subst hq''
  exact ⟨[.pluginInit "a", .pluginStartup "a"], by decide⟩

theorem interleave_get_sublist {α : Type} {L : List (List α)} {t : List α}
    (h : Interleave L t) : ∀ i : Fin L.length, List.Sublist (L.get i) t := by
  induction h with
  | nil hall =>
    rename_i L'
    intro i
    rw [hall _ (L'.get_mem i.1 i.2)]
  | take i0 hget hrest ih =>
    rename_i L a l t
    intro i
    by_cases hi : i.1 = i0.1
    · have hii : i = i0 := Fin.ext hi
      subst hii
      rw [hget]
      have hlen : i.1 < (L.set i.1 l).length := by
        simpa using i.2
      have hgl : (L.set i.1 l).get ⟨i.1, hlen⟩ = l := by
        simp [List.get_eq_getElem]
      have := ih ⟨i.1, hlen⟩
      rw [hgl] at this
      exact List.Sublist.cons₂ _ this
    · have hlen : i.1 < (L.set i0.1 l).length := by
        simpa using i.2
      have hgl : (L.set i0.1 l).get ⟨i.1, hlen⟩ = L.get i := by
        simp [List.get_eq_getElem, List.getElem_set_ne (fun he => hi he.symm)]
      have := ih ⟨i.1, hlen⟩
      rw [hgl] at this
      exact List.Sublist.cons _ this

theorem interleave_mem {α : Type} {L : List (List α)} {t : List α}
    (h : Interleave L t) : ∀ x ∈ t, ∃ i : Fin L.length, x ∈ L.get i := by
  induction h with
  | nil _ =>
    intro x hx
    cases hx
  | take i0 hget hrest ih =>
    rename_i L a l t
    intro x hx
    rcases List.mem_cons.mp hx with rfl | hx'
    · refine ⟨i0, ?_⟩
      rw [hget]
      exact .head _
    · obtain ⟨j, hj⟩ := ih x hx'
      have hjlen : j.1 < L.length := by
        simpa using j.2
      by_cases hji : j.1 = i0.1
      · refine ⟨i0, ?_⟩
        rw [hget]
        have hgl : (L.set i0.1 l).get j = l := by
          simp [List.get_eq_getElem, hji]
        rw [hgl] at hj
        exact .tail _ hj
      · refine ⟨⟨j.1, hjlen⟩, ?_⟩
        have hgl : (L.set i0.1 l).get j = L.get ⟨j.1, hjlen⟩ := by
          simp [List.get_eq_getElem, List.getElem_set_ne (fun he => hji he.symm)]
        rw [hgl] at hj
        exact hj

theorem interleave_single {α : Type} (l : List α) : Interleave [l] l := by
  induction l with
  | nil =>
    refine .nil ?_
    intro x hx
    rcases List.mem_singleton.mp hx with rfl
    rfl
  | cons a t ih =>
    exact .take ⟨0, by simp⟩ rfl ih

theorem mem_foldl_addMissing {x : String} :
    ∀ (l ms : List String), x ∈ l.foldl addMissing ms ↔ x ∈ ms ∨ x ∈ l := by
  intro l
  induction l with
  | nil => simp
  | cons a t ih =>
    intro ms
    have hstep : (a :: t).foldl addMissing ms = t.foldl addMissing (addMissing ms a) := rfl
    rw [hstep, ih, mem_addMissing]
    constructor
    · rintro ((hx | rfl) | hx)
      · exact .inl hx
      · exact .inr (.head _)
      · exact .inr (.tail _ hx)
    · rintro (hx | hx)
      · exact .inl (.inl hx)
      · rcases List.mem_cons.mp hx with rfl | hx'
        · exact .inl (.inr rfl)
        · exact .inr hx'

theorem mem_uniqList {x : String} {l : List String} : x ∈ uniqList l ↔ x ∈ l := by
  unfold uniqList
  rw [mem_foldl_addMissing]
  simp

theorem mem_allPluginIds_of_mods {I : Type} (idx : IndexState I) (pid : String)
    (h : modsOf idx pid ≠ []) : pid ∈ allPluginIds idx := by
  unfold modsOf at h
  rcases hf : idx.moduleInits.find? (fun p => p.1 == pid) with _ | pms
  · rw [hf] at h
    exact absurd rfl h
  · have hmem := List.mem_of_find?_eq_some hf
    have hkey : pms.1 = pid := by
      have := List.find?_some hf
      simpa using this
    unfold allPluginIds
    rw [mem_uniqList]
    refine List.mem_append.mpr (.inr ?_)
    rw [← hkey]
    exact List.mem_map_of_mem _ hmem

theorem mem_allPluginIds_of_pluginInit {I : Type} (idx : IndexState I) (pid : String)
    (h : (pluginInitOf idx pid).isSome = true) : pid ∈ allPluginIds idx := by
  unfold pluginInitOf at h
  rcases hf : idx.pluginInits.find? (fun p => p.1 == pid) with _ | pp
  · rw [hf] at h
    cases h
  · have hmem := List.mem_of_find?_eq_some hf
    have hkey : pp.1 = pid := by
      have := List.find?_some hf
      simpa using this
    unfold allPluginIds
    rw [mem_uniqList]
    refine List.mem_append.mpr (.inl ?_)
    rw [← hkey]
    exact List.mem_map_of_mem _ hmem

theorem mem_pluginTraceOf {pid : String} {order : List String} {b : Bool} {e : Event}
    (h : e ∈ pluginTraceOf pid order b) :
    (∃ mid, e = .moduleInit pid mid) ∨ (b = true ∧ e = .pluginInit pid) ∨
      e = .pluginStartup pid := by
  unfold pluginTraceOf at h
  rcases List.mem_append.mp h with h1 | h2
  · rcases List.mem_append.mp h1 with h1a | h1b
    · obtain ⟨mid, _, rfl⟩ := List.mem_map.mp h1a
      exact .inl ⟨mid, rfl⟩
    · cases b with
      | true =>
        rcases List.mem_singleton.mp h1b with rfl
        exact .inr (.inl ⟨rfl, rfl⟩)
      | false => cases h1b
  · rcases List.mem_singleton.mp h2 with rfl
    exact .inr (.inr rfl)

theorem doStartTrace_plugin_sub {I : Type} {inp : Inputs I} {cat : CatalogState I}
    {idx : IndexState I} {tr : List Event} {pid : String}
    (h : DoStartTraceIdx inp cat idx tr) (hpm : pid ∈ allPluginIds idx) :
    ∃ order : List (String × RegInit I),
      order.Perm (modsOf idx pid) ∧
      List.Sublist (pluginTraceOf pid (order.map (·.1)) (pluginInitOf idx pid).isSome) tr := by
  obtain ⟨hdisc, hidx, trs, hlen, hall, t, hint, htr⟩ := h
  have htsub : List.Sublist t tr := by
    rw [htr]
    exact (List.sublist_append_left t [Event.rootStartup]).trans (List.sublist_append_left _ _)
  obtain ⟨k, hk⟩ := List.mem_iff_get.mp hpm
  have hk' : Fin.cast hlen (Fin.cast hlen.symm k) = k := Fin.ext rfl
  have hptr := hall (Fin.cast hlen.symm k)
  rw [hk', hk] at hptr
  obtain ⟨order, ⟨hperm, _⟩, _, _, _, htrp⟩ := hptr
  refine ⟨order, hperm, ?_⟩
  have := interleave_get_sublist hint (Fin.cast hlen.symm k)
  rw [htrp] at this
  exact this.trans htsub

theorem doStartTrace_rootLast {I : Type} {inp : Inputs I} {cat : CatalogState I}
    {idx : IndexState I} {tr : List Event} {pid : String}
    (h : DoStartTraceIdx inp cat idx tr) (hpm : pid ∈ allPluginIds idx) :
    List.Sublist [Event.pluginStartup pid, Event.rootStartup] tr := by
  obtain ⟨hdisc, hidx, trs, hlen, hall, t, hint, htr⟩ := h
  obtain ⟨k, hk⟩ := List.mem_iff_get.mp hpm
  have hk' : Fin.cast hlen (Fin.cast hlen.symm k) = k := Fin.ext rfl
  have hptr := hall (Fin.cast hlen.symm k)
  rw [hk', hk] at hptr
  obtain ⟨order, _, _, _, _, htrp⟩ := hptr
  have hsubt := interleave_get_sublist hint (Fin.cast hlen.symm k)
  rw [htrp] at hsubt
  have hps : List.Sublist [Event.pluginStartup pid] t := by
    refine List.Sublist.trans ?_ hsubt
    refine List.singleton_sublist.mpr ?_
    unfold pluginTraceOf
    exact List.mem_append.mpr (.inr (.head _))
  have h2 : List.Sublist [Event.pluginStartup pid, Event.rootStartup]
      (t ++ [Event.rootStartup]) :=
    List.Sublist.append hps (List.Sublist.refl _)
  rw [htr]
  exact h2.trans (List.sublist_append_left _ _)

theorem doStartTrace_mem {I : Type} {inp : Inputs I} {cat : CatalogState I}
    {idx : IndexState I} {tr : List Event} (h : DoStartTraceIdx inp cat idx tr) {e : Event}
    (he : e ∈ tr) :
    e = Event.rootStartup ∨ e = Event.installErrorHooks ∨
      ∃ pid', pid' ∈ allPluginIds idx ∧
        ((∃ mid, e = .moduleInit pid' mid) ∨
          ((pluginInitOf idx pid').isSome = true ∧ e = .pluginInit pid') ∨
          e = .pluginStartup pid') := by
  obtain ⟨hdisc, hidx, trs, hlen, hall, t, hint, htr⟩ := h
  rw [htr] at he
  rcases List.mem_append.mp he with he1 | he2
  · rcases List.mem_append.mp he1 with he1a | he1b
    · obtain ⟨k, hk⟩ := interleave_mem hint e he1a
      have hptr := hall k
      obtain ⟨order, _, _, _, _, htrp⟩ := hptr
      rw [htrp] at hk
      refine .inr (.inr ⟨(allPluginIds idx).get (Fin.cast hlen k), ?_, ?_⟩)
      · exact (allPluginIds idx).get_mem _ _
      · exact mem_pluginTraceOf hk
    · rcases List.mem_singleton.mp he1b with rfl
      exact .inl rfl
  · split at he2
    · cases he2
    · rcases List.mem_singleton.mp he2 with rfl
      exact .inr (.inl rfl)

/-- C2: during a start whose tasks all succeed, within every plugin each
module init precedes the plugin's own init, the plugin's init precedes that
plugin's lifecycle startup, and the root lifecycle startup comes only after
every plugin's startup — in every event order the parallel plugin tasks may
exhibit. -/
theorem claim_C2 {I : Type} (inp : Inputs I) (cat : CatalogState I) (idx : IndexState I)
    (tr : List Event) (pid : String)
    (h : DoStartTraceIdx inp cat idx tr) :
    (∀ mid mi, (mid, mi) ∈ modsOf idx pid → (pluginInitOf idx pid).isSome = true →
      List.Sublist
        [Event.moduleInit pid mid, Event.pluginInit pid, Event.pluginStartup pid] tr) ∧
    ((pluginInitOf idx pid).isSome = true →
      List.Sublist [Event.pluginInit pid, Event.pluginStartup pid] tr) ∧
    (pid ∈ allPluginIds idx →
      List.Sublist [Event.pluginStartup pid, Event.rootStartup] tr) := by
  refine ⟨?_, ?_, ?_⟩
  · intro mid mi hmod hpis
    have hpm : pid ∈ allPluginIds idx := by
      refine mem_allPluginIds_of_mods idx pid ?_
      intro hnil
      rw [hnil] at hmod
      cases hmod
    obtain ⟨order, hperm, hsub⟩ := doStartTrace_plugin_sub h hpm
    rw [hpis] at hsub
    have hmidmem : Event.moduleInit pid mid ∈
        (order.map (·.1)).map (fun mid => Event.moduleInit pid mid) :=
      List.mem_map_of_mem _ (List.mem_map_of_mem _ (hperm.mem_iff.mpr hmod))
    have h3 : List.Sublist
        [Event.moduleInit pid mid, Event.pluginInit pid, Event.pluginStartup pid]
        (pluginTraceOf pid (order.map (·.1)) true) := by
      unfold pluginTraceOf
      rw [if_pos rfl]
      show List.Sublist
        (([Event.moduleInit pid mid] ++ [Event.pluginInit pid]) ++ [Event.pluginStartup pid])
        ((List.map (fun mid => Event.moduleInit pid mid) (order.map (·.1)) ++
          [Event.pluginInit pid]) ++ [Event.pluginStartup pid])
      exact List.Sublist.append
        (List.Sublist.append (List.singleton_sublist.mpr hmidmem) (List.Sublist.refl _))
        (List.Sublist.refl _)
    exact h3.trans hsub
  · intro hpis
    have hpm : pid ∈ allPluginIds idx := mem_allPluginIds_of_pluginInit idx pid hpis
    obtain ⟨order, hperm, hsub⟩ := doStartTrace_plugin_sub h hpm
    rw [hpis] at hsub
    have h3 : List.Sublist [Event.pluginInit pid, Event.pluginStartup pid]
        (pluginTraceOf pid (order.map (·.1)) true) := by
      unfold pluginTraceOf
      rw [if_pos rfl]
      show List.Sublist ([Event.pluginInit pid] ++ [Event.pluginStartup pid])
        ((List.map (fun mid => Event.moduleInit pid mid) (order.map (·.1)) ++
          [Event.pluginInit pid]) ++ [Event.pluginStartup pid])
      exact List.Sublist.append (List.sublist_append_right _ _) (List.Sublist.refl _)
    exact h3.trans hsub
  · intro hpm
    exact doStartTrace_rootLast h hpm

/-- C8: a plugin id that has registered modules but no plugin-kind
registration still has every module initialized and its per-plugin lifecycle
startup invoked, while no plugin-init event for it ever occurs in the
trace. -/
theorem claim_C8 {I : Type} (inp : Inputs I) (cat : CatalogState I) (idx : IndexState I)
    (tr : List Event) (pid : String)
    (h : DoStartTraceIdx inp cat idx tr)
    (hnopi : pluginInitOf idx pid = none) :
    (∀ mid mi, (mid, mi) ∈ modsOf idx pid → Event.moduleInit pid mid ∈ tr) ∧
    (modsOf idx pid ≠ [] → Event.pluginStartup pid ∈ tr) ∧
    Event.pluginInit pid ∉ tr := by
  refine ⟨?_, ?_, ?_⟩
  · intro mid mi hmod
    have hpm : pid ∈ allPluginIds idx := by
      refine mem_allPluginIds_of_mods idx pid ?_
      intro hnil
      rw [hnil] at hmod
      cases hmod
    obtain ⟨order, hperm, hsub⟩ := doStartTrace_plugin_sub h hpm
    refine hsub.subset ?_
    unfold pluginTraceOf
    refine List.mem_append.mpr (.inl (List.mem_append.mpr (.inl ?_)))
    exact List.mem_map_of_mem _ (List.mem_map_of_mem _ (hperm.mem_iff.mpr hmod))
  · intro hne
    have hpm : pid ∈ allPluginIds idx := mem_allPluginIds_of_mods idx pid hne
    obtain ⟨order, hperm, hsub⟩ := doStartTrace_plugin_sub h hpm
    refine hsub.subset ?_
    unfold pluginTraceOf
    exact List.mem_append.mpr (.inr (.head _))
  · intro hmem
    rcases doStartTrace_mem h hmem with heq | heq | ⟨pid', _, hcase⟩
    · exact Event.noConfusion heq
    · exact Event.noConfusion heq
    · rcases hcase with ⟨mid, heq⟩ | ⟨hpis, heq⟩ | heq
      · exact Event.noConfusion heq
      · have hpp : pid' = pid := by
          injection heq.symm
        rw [hpp, hnopi] at hpis
        cases hpis
      · exact Event.noConfusion heq

theorem c2_doStartTrace :
    DoStartTraceIdx c2Inp ⟨c2Inp.provided, c2Inp.features⟩ c2Idx c2Trace := by
  refine ⟨rfl, by decide,
    [[Event.moduleInit "p" "m", Event.pluginInit "p", Event.pluginStartup "p"]],
    by decide, ?_,
    [Event.moduleInit "p" "m", Event.pluginInit "p", Event.pluginStartup "p"],
    interleave_single _, by decide⟩
  intro k
  obtain ⟨i, hi⟩ := k
  cases i with
  | zero =>
    show PluginTraceOK c2Idx.eps (doStartSvcGet c2Inp) c2Idx "p"
      [Event.moduleInit "p" "m", Event.pluginInit "p", Event.pluginStartup "p"]
    refine ⟨[("m", ⟨[], [], [], none⟩)], ⟨List.Perm.refl _, by decide⟩, by decide, ?_, ?_,
      by decide⟩
    · intro m hm
      have hms : modsOf c2Idx "p" = [("m", ⟨[], [], [], none⟩)] := rfl
      rw [hms] at hm
      rcases List.mem_singleton.mp hm with rfl
      exact ⟨⟨[], rfl⟩, rfl⟩
    · intro pi hpi
      have hps : pluginInitOf c2Idx "p" = some ⟨[], [], [], none⟩ := rfl
      rw [hps] at hpi
      injection hpi with h
      rw [← h]
      exact ⟨⟨[], rfl⟩, rfl⟩
  | succ n => exact absurd hi (by simp)

theorem claim_C2_witness :
    List.Sublist [Event.moduleInit "p" "m", Event.pluginInit "p", Event.pluginStartup "p"]
      c2Trace ∧
    List.Sublist [Event.pluginStartup "p", Event.rootStartup] c2Trace := by
  have h := claim_C2 c2Inp ⟨c2Inp.provided, c2Inp.features⟩ c2Idx c2Trace "p" c2_doStartTrace
  exact ⟨h.1 "m" ⟨[], [], [], none⟩ (by decide) (by decide), h.2.2 (by decide)⟩

theorem c8_doStartTrace :
    DoStartTraceIdx c8Inp ⟨c8Inp.provided, c8Inp.features⟩ c8Idx c8Trace := by
  refine ⟨rfl, by decide,
    [[Event.moduleInit "p" "m", Event.pluginStartup "p"]],
    by decide, ?_,
    [Event.moduleInit "p" "m", Event.pluginStartup "p"],
    interleave_single _, by decide⟩
  intro k
  obtain ⟨i, hi⟩ := k
  cases i with
  | zero =>
    show PluginTraceOK c8Idx.eps (doStartSvcGet c8Inp) c8Idx "p"
      [Event.moduleInit "p" "m", Event.pluginStartup "p"]
    refine ⟨[("m", ⟨[], [], [], none⟩)], ⟨List.Perm.refl _, by decide⟩, by decide, ?_, ?_,
      by decide⟩
    · intro m hm
      have hms : modsOf c8Idx "p" = [("m", ⟨[], [], [], none⟩)] := rfl
      rw [hms] at hm
      rcases List.mem_singleton.mp hm with rfl
      exact ⟨⟨[], rfl⟩, rfl⟩
    · intro pi hpi
      have hps : pluginInitOf c8Idx "p" = none := rfl
      rw [hps] at hpi
      exact Option.noConfusion hpi
  | succ n => exact absurd hi (by simp)

theorem claim_C8_witness :
    Event.moduleInit "p" "m" ∈ c8Trace ∧ Event.pluginStartup "p" ∈ c8Trace ∧
      Event.pluginInit "p" ∉ c8Trace := by
  have h := claim_C8 c8Inp ⟨c8Inp.provided, c8Inp.features⟩ c8Idx c8Trace "p" c8_doStartTrace rfl
  exact ⟨h.1 "m" ⟨[], [], [], none⟩ (by decide), h.2.1 (by decide), h.2.2⟩

/-- C4 counterexample: repeated `stop()` calls do not return the same
outcome. After a successful start the first `stop()` resolves, but a second
`stop()` re-enters the root lifecycle `shutdown()` — `stop()` memoizes
nothing — and with the fire-once lifecycle of the spec the repeat is
rejected. -/
theorem claim_C4_cex :
    (stop (start initialMachine emptyInputs).2).1 = .ok () ∧
    (stop (stop (start initialMachine emptyInputs).2).2).1 =
      .error .lifecycleAlreadyInvoked := by
  decide

/-- C4 (amended): `stop()` before any `start()` is a no-op that resolves
successfully and changes nothing. After `start()` was called, every `stop()`
call awaits the start outcome and invokes the root lifecycle `shutdown()`
anew — the calls share no memoized completion future — so the first `stop()`
resolves and marks the shutdown done, and a repeated `stop()` returns the
outcome of a second `shutdown()`, which the spec's fire-once lifecycle
rejects. -/
theorem claim_C4 (m : Machine) :
    (m.startAttempted = false → stop m = (.ok (), m)) ∧
    (m.startAttempted = true → m.rootShutdownCalled = false →
      stop m = (.ok (), { m with rootShutdownCalled := true }) ∧
      (stop { m with rootShutdownCalled := true }).1 = .error .lifecycleAlreadyInvoked) := by
  constructor
  · intro h
    simp [stop, h]
  · intro h1 h2
    constructor
    · simp [stop, rootShutdown, h1, h2]
    · simp [stop, rootShutdown, h1]

theorem claim_C4_witness :
    stop initialMachine = (.ok (), initialMachine) ∧
    stop ⟨true, none, true, false, false⟩ = (.ok (), ⟨true, none, true, false, true⟩) ∧
    (stop ⟨true, none, true, false, true⟩).1 = .error .lifecycleAlreadyInvoked := by
  refine ⟨(claim_C4 initialMachine).1 rfl, ?_, ?_⟩
  · exact ((claim_C4 ⟨true, none, true, false, false⟩).2 rfl rfl).1
  · exact ((claim_C4 ⟨true, none, true, false, false⟩).2 rfl rfl).2

/-- C5 counterexample: the process signal handlers are installed in test mode
as well, and already at the beginning of `start()` rather than on entering
Running: a successful test-mode start yields a trace whose first event
installs the signal handlers, and the machine records them installed. -/
theorem claim_C5_cex :
    StartTrace initialMachine c5Inp [Event.installSignalHandlers, Event.rootStartup] ∧
    Event.installSignalHandlers ∈ [Event.installSignalHandlers, Event.rootStartup] ∧
    c5Inp.testMode = true ∧
    ((start initialMachine c5Inp).2).signalHandlersInstalled = true := by
  refine ⟨⟨rfl, [Event.rootStartup], ⟨⟨c5Inp.provided, c5Inp.features⟩, emptyIndex, rfl,
    by decide, [], by decide, ?_, [], ?_, by decide⟩, rfl⟩, .head _, rfl, by decide⟩
  · intro k
    exact absurd k.2 (by simp)
  · refine .nil ?_
    intro l hl
    cases hl

/-- C5 (amended): the process signal handlers are installed at the beginning
of `start()`, before any initialization work, regardless of test mode and of
whether the start succeeds; only the unhandled-error hooks are restricted to
the Running transition, installed after the root lifecycle startup and only
outside test mode. -/
theorem claim_C5 {I : Type} (m : Machine) (inp : Inputs I) (tr : List Event) :
    (StartTrace m inp tr →
      tr.head? = some Event.installSignalHandlers ∧
      (Event.installErrorHooks ∈ tr ↔ inp.testMode = false) ∧
      (inp.testMode = false →
        List.Sublist [Event.rootStartup, Event.installErrorHooks] tr)) ∧
    (m.startAttempted = false →
      ((start m inp).2).signalHandlersInstalled = true ∧
      (((start m inp).2).errorHooksInstalled = true ↔
        (doStart inp).1 = .ok () ∧ inp.testMode = false)) := by
  constructor
  · rintro ⟨hm, t, ⟨cat, idx, hidxtr⟩, rfl⟩
    obtain ⟨hdisc, hidx, trs, hlen, hall, t0, hint, htr⟩ := hidxtr
    refine ⟨rfl, ?_, ?_⟩
    · constructor
      · intro hmem
        rcases List.mem_cons.mp hmem with heq | hmem'
        · exact Event.noConfusion heq
        · rcases doStartTrace_mem ⟨hdisc, hidx, trs, hlen, hall, t0, hint, htr⟩ hmem' with
            heq | heq | ⟨pid', _, hcase⟩
          · exact Event.noConfusion heq
          · by_contra hneq
            have htm : inp.testMode = true := by
              cases htmv : inp.testMode
              · exact absurd htmv hneq
              · rfl
            rw [htr] at hmem'
            rw [htm] at hmem'
            rcases List.mem_append.mp hmem' with h1 | h2
            · rcases List.mem_append.mp h1 with h1a | h1b
              · obtain ⟨k, hk⟩ := interleave_mem hint _ h1a
                obtain ⟨order, _, _, _, _, htrp⟩ := hall k
                rw [htrp] at hk
                rcases mem_pluginTraceOf hk with ⟨mid, hx⟩ | ⟨_, hx⟩ | hx <;>
                  exact Event.noConfusion hx
              · rcases List.mem_singleton.mp h1b with hx
                exact Event.noConfusion hx
            · cases h2
          · rcases hcase with ⟨mid, hx⟩ | ⟨_, hx⟩ | hx <;> exact Event.noConfusion hx
      · intro htm
        rw [htr, htm]
        refine List.mem_cons.mpr (.inr ?_)
        exact List.mem_append.mpr (.inr (.head _))
    · intro htm
      rw [htr, htm]
      have h1 : List.Sublist [Event.rootStartup, Event.installErrorHooks]
          ([Event.rootStartup] ++ [Event.installErrorHooks]) := List.Sublist.refl _
      have h2 : List.Sublist ([Event.rootStartup] ++ [Event.installErrorHooks])
          ((t0 ++ [Event.rootStartup]) ++ [Event.installErrorHooks]) :=
        List.Sublist.append (List.sublist_append_right _ _) (List.Sublist.refl _)
      exact List.Sublist.cons _ (h1.trans h2)
  · intro hm
    constructor
    · simp [start, hm]
    · cases hres : (doStart inp).1 with
      | ok u =>
        cases u
        simp [start, hm, hres, errOf]
      | error e =>
        simp [start, hm, hres, errOf]

theorem claim_C5_witness :
    (Event.installSignalHandlers :: c2Trace).head? = some Event.installSignalHandlers ∧
    Event.installErrorHooks ∈ Event.installSignalHandlers :: c2Trace ∧
    ((start initialMachine c2Inp).2).signalHandlersInstalled = true := by
  have h := claim_C5 initialMachine c2Inp (Event.installSignalHandlers :: c2Trace)
  have hst : StartTrace initialMachine c2Inp (Event.installSignalHandlers :: c2Trace) :=
    ⟨rfl, c2Trace, ⟨⟨c2Inp.provided, c2Inp.features⟩, c2Idx, c2_doStartTrace⟩, rfl⟩
  obtain ⟨h1, h2, _⟩ := h.1 hst
  exact ⟨h1, h2.mpr rfl, (h.2 rfl).1⟩

/-- C6: after a `start()` whose future rejected, `stop()` resolves
successfully and invokes the root lifecycle `shutdown()`, and any subsequent
`start()` fails with the already-started error. -/
theorem claim_C6 {I : Type} (inp : Inputs I) (e : BackendError)
    (hfail : (doStart inp).1 = .error e) :
    (start initialMachine inp).1 = .error e ∧
    (stop (start initialMachine inp).2).1 = .ok () ∧
    ((stop (start initialMachine inp).2).2).rootShutdownCalled = true ∧
    ∀ (inp' : Inputs I), (start (start initialMachine inp).2 inp').1 = .error .alreadyStarted := by
  have h1 : start initialMachine inp =
      (.error e, ⟨true, some e, true, false, false⟩) := by
    simp [start, initialMachine, hfail, errOf]
  rw [h1]
  refine ⟨rfl, ?_, ?_, ?_⟩
  · simp [stop, rootShutdown]
  · simp [stop, rootShutdown]
  · intro inp'
    simp [start]

theorem claim_C6_witness :
    (start initialMachine c6Inp).1 = .error (.unresolvedDependencies ["svc.missing"]) ∧
    (stop (start initialMachine c6Inp).2).1 = .ok () ∧
    ((stop (start initialMachine c6Inp).2).2).rootShutdownCalled = true ∧
    (start (start initialMachine c6Inp).2 c6Inp).1 = .error .alreadyStarted := by
  have h := claim_C6 c6Inp (.unresolvedDependencies ["svc.missing"]) (by decide)
  exact ⟨h.1, h.2.1, h.2.2.1, h.2.2.2 c6Inp⟩

theorem addFeature_provided_mono {I : Type} (st st' : CatalogState I) (f : Feature I)
    (h : addFeature st f = .ok st') :
    ∃ ext, st'.providedServiceFactories = st.providedServiceFactories ++ ext := by
  cases f with
  | serviceFactory tag sid =>
    simp only [addFeature] at h
    split at h
    · cases h
    · split at h
      · cases h
      · split at h
        · cases h
        · cases h
          exact ⟨[sid], rfl⟩
  | internal tag version regs =>
    simp only [addFeature] at h
    split at h
    · cases h
    · split at h
      · cases h
      · cases h
        exact ⟨[], by simp⟩
  | other tag d =>
    simp only [addFeature] at h
    split at h <;> cases h

theorem addFeaturesLoop_append_error {I : Type} :
    ∀ (fs₁ : List (Feature I)) (st st₁ : CatalogState I) (f : Feature I)
      (fs₂ : List (Feature I)) (e : BackendError),
      addFeaturesLoop st fs₁ = .ok st₁ →
      addFeature st₁ f = .error e →
      addFeaturesLoop st (fs₁ ++ f :: fs₂) = .error e := by
  intro fs₁
  induction fs₁ with
  | nil =>
    intro st st₁ f fs₂ e hok herr
    have hst : st = st₁ := by
      injection hok
    subst hst
    simp [addFeaturesLoop, herr]
  | cons g tl ih =>
    intro st st₁ f fs₂ e hok herr
    cases hg : addFeature st g with
    | error e' =>
      simp [addFeaturesLoop, hg] at hok
    | ok st' =>
      simp only [addFeaturesLoop, hg] at hok ⊢
      exact ih st' st₁ f fs₂ e hok herr

theorem addFeaturesLoop_mem {I : Type} :
    ∀ (fs : List (Feature I)) (st cat : CatalogState I) (sid : String),
      addFeaturesLoop st fs = .ok cat →
      (sid ∈ st.providedServiceFactories ∨
        Feature.serviceFactory backendFeatureType sid ∈ fs) →
      sid ∈ cat.providedServiceFactories := by
  intro fs
  induction fs with
  | nil =>
    intro st cat sid hok hmem
    have hst : st = cat := by
      injection hok
    subst hst
    rcases hmem with h | h
    · exact h
    · cases h
  | cons g tl ih =>
    intro st cat sid hok hmem
    cases hg : addFeature st g with
    | error e' =>
      simp [addFeaturesLoop, hg] at hok
    | ok st' =>
      simp only [addFeaturesLoop, hg] at hok
      rcases hmem with h | h
      · obtain ⟨ext, hext⟩ := addFeature_provided_mono st st' g hg
        refine ih st' cat sid hok (.inl ?_)
        rw [hext]
        exact List.mem_append.mpr (.inl h)
      · rcases List.mem_cons.mp h with heq | h'
        · subst heq
          simp only [addFeature] at hg
          split at hg
          · cases hg
          · split at hg
            · cases hg
            · split at hg
              · cases hg
              · cases hg
                refine ih _ cat sid hok (.inl ?_)
                simp
        · exact ih st' cat sid hok (.inr h')

/-- C9: the service registry is created from the defaults plus the pre-start
overrides before feature discovery runs, so the set of services resolvable
through it is unchanged by discovery: a discovered service factory is
validated by the classification rules — it is recorded in the catalog, a
pluginMetadata override or a duplicate makes start fail — but it is never
installed in the registry used for resolution. -/
theorem claim_C9 {I : Type} (inp : Inputs I) :
    (∀ refId pid, refId ∉ inp.defaults ++ inp.provided → doStartSvcGet inp refId pid = none) ∧
    (∀ refId pid, (doStartSvcGet inp refId pid).isSome = true →
      refId ∈ inp.defaults ++ inp.provided) ∧
    (∀ e, discoveryPhase ⟨inp.provided, inp.features⟩ inp.discovered = .error e →
      (doStart inp).1 = .error e) ∧
    (∀ fs sid cat, inp.discovered = some fs →
      Feature.serviceFactory backendFeatureType sid ∈ fs →
      discoveryPhase ⟨inp.provided, inp.features⟩ inp.discovered = .ok cat →
      sid ∈ cat.providedServiceFactories) ∧
    (∀ fs fs₁ fs₂ st₁, inp.discovered = some fs →
      fs = fs₁ ++ Feature.serviceFactory backendFeatureType pluginMetadataId :: fs₂ →
      addFeaturesLoop ⟨inp.provided, inp.features⟩ fs₁ = .ok st₁ →
      (doStart inp).1 = .error .forbiddenServiceOverride) ∧
    (∀ fs fs₁ fs₂ st₁ sid, inp.discovered = some fs →
      fs = fs₁ ++ Feature.serviceFactory backendFeatureType sid :: fs₂ →
      addFeaturesLoop ⟨inp.provided, inp.features⟩ fs₁ = .ok st₁ →
      sid ≠ pluginMetadataId →
      st₁.providedServiceFactories.contains sid = true →
      (doStart inp).1 = .error (.duplicateServiceImpl sid)) := by
  refine ⟨?_, ?_, ?_, ?_, ?_, ?_⟩
  · intro refId pid h
    unfold doStartSvcGet regGet
    rw [if_neg]
    simpa using h
  · intro refId pid h
    unfold doStartSvcGet regGet at h
    by_cases hc : (inp.defaults ++ inp.provided).contains refId = true
    · simpa using hc
    · rw [if_neg (by simpa using hc)] at h
      cases h
  · intro e h
    simp [doStart, h]
  · intro fs sid cat hd hmem hdisc
    rw [hd] at hdisc
    unfold discoveryPhase at hdisc
    exact addFeaturesLoop_mem fs ⟨inp.provided, inp.features⟩ cat sid hdisc (.inr hmem)
  · intro fs fs₁ fs₂ st₁ hd hsplit hok
    have herr : addFeature st₁ (Feature.serviceFactory backendFeatureType pluginMetadataId) =
        .error .forbiddenServiceOverride := by
      simp [addFeature]
    have hloop := addFeaturesLoop_append_error fs₁ ⟨inp.provided, inp.features⟩ st₁ _ fs₂ _
      hok herr
    have hdisc : discoveryPhase ⟨inp.provided, inp.features⟩ inp.discovered =
        .error .forbiddenServiceOverride := by
      rw [hd]
      unfold discoveryPhase
      rw [hsplit]
      exact hloop
    simp [doStart, hdisc]
  · intro fs fs₁ fs₂ st₁ sid hd hsplit hok hne hcont
    have hmem : sid ∈ st₁.providedServiceFactories := by
      simpa using hcont
    have herr : addFeature st₁ (Feature.serviceFactory backendFeatureType sid) =
        .error (.duplicateServiceImpl sid) := by
      simp [addFeature, hne, hmem]
    have hloop := addFeaturesLoop_append_error fs₁ ⟨inp.provided, inp.features⟩ st₁ _ fs₂ _
      hok herr
    have hdisc : discoveryPhase ⟨inp.provided, inp.features⟩ inp.discovered =
        .error (.duplicateServiceImpl sid) := by
      rw [hd]
      unfold discoveryPhase
      rw [hsplit]
      exact hloop
    simp [doStart, hdisc]

theorem claim_C9_witness :
    doStartSvcGet c9Inp "svc.x" "p" = none ∧
    "svc.x" ∈ (⟨["svc.x"], []⟩ : CatalogState Nat).providedServiceFactories := by
  refine ⟨(claim_C9 c9Inp).1 "svc.x" "p" (by decide), ?_⟩
  exact (claim_C9 c9Inp).2.2.2.1 [Feature.serviceFactory backendFeatureType "svc.x"]
    "svc.x" ⟨["svc.x"], []⟩ rfl (.head _) (by decide)

theorem findPath_sound (nodes : List GNode) (b : GNode) :
    ∀ (k : Nat) (a : GNode) (l : List GNode), findPath nodes k a b = some l →
      GPath a l b ∧ ∀ x ∈ l, x ∈ nodes := by
  intro k
  induction k with
  | zero =>
    intro a l h
    simp only [findPath] at h
    split at h
    · next he =>
      cases h
      refine ⟨?_, by simp⟩
      unfold GPath
      exact List.chain_cons.mpr ⟨he, .nil⟩
    · cases h
  | succ k' ih =>
    intro a l h
    simp only [findPath] at h
    split at h
    · next he =>
      cases h
      refine ⟨?_, by simp⟩
      unfold GPath
      exact List.chain_cons.mpr ⟨he, .nil⟩
    · next he =>
      obtain ⟨c, hc, hfc⟩ := List.exists_of_findSome?_eq_some h
      split at hfc
      · next hac =>
        cases hfp : findPath nodes k' c b with
        | none =>
          rw [hfp] at hfc
          cases hfc
        | some l0 =>
          rw [hfp] at hfc
          have hfc' : c :: l0 = l := by
            simpa using hfc
          subst hfc'
          obtain ⟨hp0, hsub0⟩ := ih c l0 hfp
          refine ⟨?_, ?_⟩
          · unfold GPath
            rw [List.cons_append]
            exact List.chain_cons.mpr ⟨hac, hp0⟩
          · intro x hx
            rcases List.mem_cons.mp hx with rfl | hx'
            · exact hc
            · exact hsub0 x hx'
      · cases hfc

theorem gpath_findPath_isSome (nodes : List GNode) (b : GNode) :
    ∀ (l : List GNode) (k : Nat) (a : GNode), GPath a l b → (∀ x ∈ l, x ∈ nodes) →
      l.length ≤ k → (findPath nodes k a b).isSome = true := by
  intro l
  induction l with
  | nil =>
    intro k a hp _ _
    have he : gEdge a b = true := (List.chain_cons.mp hp).1
    cases k <;> simp [findPath, he]
  | cons c t ih =>
    intro k a hp hsub hlen
    unfold GPath at hp
    rw [List.cons_append] at hp
    have hac : gEdge a c = true := (List.chain_cons.mp hp).1
    have hct : GPath c t b := (List.chain_cons.mp hp).2
    cases k with
    | zero =>
      refine absurd hlen ?_
      simp
    | succ k' =>
      by_cases hab : gEdge a b = true
      · simp [findPath, hab]
      · have hfp : (findPath nodes k' c b).isSome = true :=
          ih k' c hct (fun x hx => hsub x (.tail _ hx)) (by simpa using hlen)
        simp only [findPath]
        rw [if_neg hab]
        cases hd : nodes.findSome? (fun c' =>
            if gEdge a c' = true then (findPath nodes k' c' b).map (c' :: ·) else none) with
        | some l0 => simp
        | none =>
          rw [List.findSome?_eq_none_iff] at hd
          have hcnone := hd c (hsub c (.head _))
          rw [if_pos hac] at hcnone
          cases hfp' : findPath nodes k' c b with
          | none =>
            rw [hfp'] at hfp
            cases hfp
          | some l0 =>
            rw [hfp'] at hcnone
            cases hcnone

theorem not_nodup_split {α : Type} :
    ∀ (l : List α), ¬l.Nodup →
      ∃ (l₁ : List α) (x : α) (l₂ l₃ : List α), l = l₁ ++ x :: (l₂ ++ x :: l₃) := by
  intro l
  induction l with
  | nil =>
    intro h
    exact absurd List.nodup_nil h
  | cons a t ih =>
    intro h
    rw [List.nodup_cons] at h
    by_cases ha : a ∈ t
    · obtain ⟨s, u, rfl⟩ := List.append_of_mem ha
      exact ⟨[], a, s, u, by simp⟩
    · have hnd : ¬t.Nodup := fun hnd => h ⟨ha, hnd⟩
      obtain ⟨l₁, x, l₂, l₃, rfl⟩ := ih hnd
      exact ⟨a :: l₁, x, l₂, l₃, rfl⟩

theorem gpath_shortcut (a x : GNode) (l₁ l₂ l₃ : List GNode)
    (h : GPath a (l₁ ++ x :: (l₂ ++ x :: l₃)) a) : GPath a (l₁ ++ x :: l₃) a := by
  unfold GPath at h ⊢
  have h' : List.Chain (fun p q => gEdge p q = true) a
      (l₁ ++ x :: (l₂ ++ x :: (l₃ ++ [a]))) := by
    simpa using h
  rw [List.chain_split] at h'
  obtain ⟨h1, h2⟩ := h'
  rw [List.chain_split] at h2
  obtain ⟨_, h3⟩ := h2
  have hres : List.Chain (fun p q => gEdge p q = true) a (l₁ ++ x :: (l₃ ++ [a])) :=
    List.chain_split.mpr ⟨h1, h3⟩
  simpa using hres

theorem gpath_shorten (nodes : List GNode) (a : GNode) :
    ∀ (n : Nat) (l : List GNode), l.length ≤ n → (∀ x ∈ l, x ∈ nodes) → GPath a l a →
      ∃ l', (∀ x ∈ l', x ∈ nodes) ∧ l'.length ≤ nodes.length ∧ GPath a l' a := by
  intro n
  induction n with
  | zero =>
    intro l hlen hsub hp
    have hl : l = [] := List.length_eq_zero.mp (Nat.le_zero.mp hlen)
    subst hl
    exact ⟨[], by simp, by simp, hp⟩
  | succ n ih =>
    intro l hlen hsub hp
    by_cases hle : l.length ≤ nodes.length
    · exact ⟨l, hsub, hle, hp⟩
    · have hnd : ¬l.Nodup := by
        intro hnd
        exact hle (hnd.subperm hsub).length_le
      obtain ⟨l₁, x, l₂, l₃, rfl⟩ := not_nodup_split _ hnd
      have hp' := gpath_shortcut a x l₁ l₂ l₃ hp
      refine ih (l₁ ++ x :: l₃) ?_ ?_ hp'
      · simp only [List.length_append, List.length_cons] at hlen ⊢
        omega
      · intro y hy
        apply hsub
        simp only [List.mem_append, List.mem_cons] at hy ⊢
        tauto

theorem detect_complete (nodes : List GNode) (h : HasCycle nodes) :
    ∃ cyc, detectCircularDependency nodes = some cyc := by
  obtain ⟨a, ha, l, hsub, hp⟩ := h
  obtain ⟨l', hsub', hlen', hp'⟩ := gpath_shorten nodes a l.length l (le_refl _) hsub hp
  have hfp : (findPath nodes nodes.length a a).isSome = true :=
    gpath_findPath_isSome nodes a l' nodes.length a hp' hsub' hlen'
  unfold detectCircularDependency
  cases hd : nodes.findSome? (fun a =>
      (findPath nodes nodes.length a a).map (fun l => a :: (l ++ [a]))) with
  | some cyc => exact ⟨cyc, rfl⟩
  | none =>
    rw [List.findSome?_eq_none_iff] at hd
    have hnone := hd a ha
    cases hfp' : findPath nodes nodes.length a a with
    | none =>
      rw [hfp'] at hfp
      cases hfp
    | some l0 =>
      rw [hfp'] at hnone
      cases hnone

theorem detect_sound (nodes : List GNode) (cyc : List GNode)
    (h : detectCircularDependency nodes = some cyc) :
    ∃ a l, a ∈ nodes ∧ (∀ x ∈ l, x ∈ nodes) ∧ GPath a l a ∧ cyc = a :: (l ++ [a]) := by
  unfold detectCircularDependency at h
  obtain ⟨a, ha, hfa⟩ := List.exists_of_findSome?_eq_some h
  cases hfp : findPath nodes nodes.length a a with
  | none =>
    rw [hfp] at hfa
    cases hfa
  | some l =>
    rw [hfp] at hfa
    have hfa' : a :: (l ++ [a]) = cyc := by
      simpa using hfa
    obtain ⟨hp, hsub⟩ := findPath_sound nodes a nodes.length a l hfp
    exact ⟨a, l, ha, hsub, hp, hfa'.symm⟩

/-- C3: the per-plugin module graph is built with reversed edges — a module
node provides the ids of the refs its module consumes and consumes the ids
of the extension points its module provides — so in every valid traversal
order a module providing an extension point completes only after every
module consuming it; and when this graph has a cycle, the module phase — and
with it `start()` — fails with the circular-dependency error whose path is a
genuine cycle through the offending modules. -/
theorem claim_C3 {I : Type} (pid : String) (mods : List (String × RegInit I)) :
    (∀ (a b : String × RegInit I) (E : String) (order : List (String × RegInit I)),
      a ∈ mods → b ∈ mods → E ∈ a.2.provides → E ∈ b.2.consumes →
      ValidModuleOrder mods order →
      ∀ i j : Fin order.length, order.get i = a → order.get j = b → j < i) ∧
    (HasCycle (moduleGraphNodes mods) →
      ∀ (eps : EpTable I) (svcGet : String → String → Option I),
        ∃ cyc : List GNode,
          (runModulesPhase eps svcGet pid mods).1 =
            .error (.circularModuleDependency pid (cyc.map (·.value))) ∧
          ∃ a l, a ∈ moduleGraphNodes mods ∧ (∀ x ∈ l, x ∈ moduleGraphNodes mods) ∧
            GPath a l a ∧ cyc = a :: (l ++ [a])) ∧
    (∀ (inp : Inputs I) (cat : CatalogState I) (idx : IndexState I)
        (before after : List String),
      discoveryPhase ⟨inp.provided, inp.features⟩ inp.discovered = .ok cat →
      indexPhase cat.features.flatten = .ok idx →
      modsOf idx pid = mods →
      HasCycle (moduleGraphNodes mods) →
      allPluginIds idx = before ++ pid :: after →
      (∀ q ∈ before, ∃ evts, runPlugin idx.eps (doStartSvcGet inp) idx q = (.ok (), evts)) →
      ∃ cyc : List GNode,
        (start initialMachine inp).1 =
          .error (.circularModuleDependency pid (cyc.map (·.value)))) := by
  refine ⟨?_, ?_, ?_⟩
  · intro a b E order _ _ hEa hEb hvo i j hia hjb
    obtain ⟨_, horder⟩ := hvo
    refine horder i j ?_
    rw [hia, hjb]
    unfold gEdge gnodeOf
    rw [List.any_eq_true]
    refine ⟨E, hEa, ?_⟩
    simpa using hEb
  · intro hcyc eps svcGet
    obtain ⟨cyc, hdet⟩ := detect_complete (moduleGraphNodes mods) hcyc
    obtain ⟨a, l, ha, hsub, hp, hcyceq⟩ := detect_sound (moduleGraphNodes mods) cyc hdet
    refine ⟨cyc, ?_, a, l, ha, hsub, hp, hcyceq⟩
    simp [runModulesPhase, hdet]
  · intro inp cat idx before after hdisc hidx hmods hcyc hsplit hbok
    obtain ⟨cyc, hdet⟩ := detect_complete (moduleGraphNodes mods) hcyc
    have hrp : (runPlugin idx.eps (doStartSvcGet inp) idx pid).1 =
        .error (.circularModuleDependency pid (cyc.map (·.value))) := by
      rw [← hmods] at hdet
      simp [runPlugin, runModulesPhase, hdet]
    refine ⟨cyc, ?_⟩
    rw [start_fresh initialMachine inp rfl]
    exact doStart_error_of_runPlugin inp cat idx _ before pid after hdisc hidx hsplit hbok hrp

theorem claim_C3_witness :
    ∃ cyc : List GNode,
      (start initialMachine c3Inp).1 =
        .error (.circularModuleDependency "p" (cyc.map (·.value))) := by
  refine (claim_C3 (I := Nat) "p" (modsOf c3Idx "p")).2.2 c3Inp
    ⟨c3Inp.provided, c3Inp.features⟩ c3Idx [] [] rfl (by decide) rfl ?_ (by decide) ?_
  · refine ⟨⟨"m1", ["y"], ["x"]⟩, by decide, [⟨"m2", ["x"], ["y"]⟩], by decide, ?_⟩
    unfold GPath
    exact List.Chain.cons (by decide) (List.Chain.cons (by decide) List.Chain.nil)
  · intro q hq
    cases hq

end Backstage
